import Mathlib

/-!
Verification development for the league-setup round-trip subsystem of
pmurley/go-fantrax.

The Go sources embedded here are `auth_client/set_period_matchups.go`
(`SetPeriodMatchups`, `BuildFormBody`, `serializeMatchups`),
`auth_client/get_league_setup_matchups.go` (`parseMatchupMap`, `parseTeams`,
`parseDivisions`, `parseFormConfig`, `parseSelectFields`) and the record types
of `models/league_setup.go`.

Modelling conventions:
- Go strings are Lean `String` values (lists of characters); lengths are
  counted in characters.
- Go maps are association lists with the Go map operations translated as
  replace-or-append (`mapSet`) and first-match lookup (`mapLookup`); map
  iteration order, which is unspecified in Go, is the list order, and
  theorems that depend on it carry a no-duplicate-keys hypothesis or prove
  order-independence explicitly.
- `url.Values` is an association list from keys to value lists with the
  `Set`/`Add`/`Get` operations of `net/url` translated directly.
- The regular-expression scans of the parser are implemented as character
  scanners that realize the leftmost-first matching of the concrete patterns
  appearing in the source, scanning every start position from the left and
  resuming after the end of each emitted match.
- Network calls are modelled by their observable pieces: the form body built
  before the POST, and the classification of a response status/body pair.
-/

/-! ### Decimal formatting (Go `strconv.Itoa` / `fmt %d`) -/

/-- Decimal digit characters, most significant first, with enough fuel. -/
def decDigitsAux : Nat → Nat → List Char
  | 0, _ => []
  | fuel + 1, n =>
    if n < 10 then [Char.ofNat (48 + n)]
    else decDigitsAux fuel (n / 10) ++ [Char.ofNat (48 + n % 10)]

/-- Decimal digit characters of a natural number, most significant first. -/
def decDigits (n : Nat) : List Char :=
  decDigitsAux (n + 1) n

/-- Decimal rendering of a natural number, as produced by Go `%d`. -/
def natDecString (n : Nat) : String :=
  String.mk (decDigits n)

/-- Decimal rendering of an integer, as produced by Go `strconv.Itoa`. -/
def intDecString (i : Int) : String :=
  if i < 0 then String.mk ('-' :: decDigits i.natAbs) else natDecString i.toNat

/-! ### Data model (`models/league_setup.go`) -/

/-- One away/home pairing inside a scoring period; home id "-1" is the bye. -/
structure MatchupPair where
  AwayTeamID : String
  HomeTeamID : String
  deriving DecidableEq

/-- One owner of a team, parsed from an addTeam() call. -/
structure TeamOwner where
  Email : String
  UserID : String
  IsCommissioner : Bool
  JoinedLeague : Bool
  deriving DecidableEq

/-- One team with its owners. -/
structure LeagueSetupTeam where
  TeamID : String
  Name : String
  ShortName : String
  Owners : List TeamOwner
  deriving DecidableEq

/-- One division with its member team ids. -/
structure LeagueSetupDivision where
  DivisionID : String
  Name : String
  TeamIDs : List String
  deriving DecidableEq

/-- All form field values echoed back on the POST. -/
structure LeagueSetupFormConfig where
  HiddenFields : List (String × String)
  SelectFields : List (String × String)
  CheckboxFields : List (String × String)
  TeamNames : List (String × String)
  TeamShortNames : List (String × String)
  OwnerEmailFields : List (String × String)
  DivisionNames : List (String × String)
  Divisions : List String
  deriving DecidableEq

/-- The assembled snapshot of the league setup page. -/
structure LeagueSetupMatchups where
  Teams : List LeagueSetupTeam
  Divisions : List LeagueSetupDivision
  Matchups : List (Int × List MatchupPair)
  FormConfig : LeagueSetupFormConfig
  deriving DecidableEq

/-! ### Go map operations on association lists -/

/-- Lookup in a Go map: the value stored at a key, if present. -/
def mapLookup {κ ν : Type} [BEq κ] (m : List (κ × ν)) (k : κ) : Option ν :=
  match m.find? (fun p => p.1 == k) with
  | some p => some p.2
  | none => none

/-- Assignment in a Go map: replace the entry at the key, or append it. -/
def mapSet {κ ν : Type} [BEq κ] (m : List (κ × ν)) (k : κ) (v : ν) : List (κ × ν) :=
  if m.any (fun p => p.1 == k) then m.map (fun p => if p.1 == k then (p.1, v) else p)
  else m ++ [(k, v)]

/-! ### `url.Values` operations -/

/-- The `url.Values` multimap: keys to ordered value lists. -/
abbrev FormValues := List (String × List String)

/-- `url.Values.Get`-style lookup returning the whole value list of a key. -/
def valuesGet (f : FormValues) (k : String) : List String :=
  match f.find? (fun p => p.1 == k) with
  | some p => p.2
  | none => []

/-- `url.Values.Set`: make the key hold exactly one value. -/
def valuesSet (f : FormValues) (k v : String) : FormValues :=
  if f.any (fun p => p.1 == k) then f.map (fun p => if p.1 == k then (p.1, [v]) else p)
  else f ++ [(k, [v])]

/-- `url.Values.Add`: append one value to the key. -/
def valuesAdd (f : FormValues) (k v : String) : FormValues :=
  if f.any (fun p => p.1 == k) then f.map (fun p => if p.1 == k then (p.1, p.2 ++ [v]) else p)
  else f ++ [(k, [v])]

/-- Sequence of `Set` calls, one per pair. -/
def setList (f : FormValues) (l : List (String × String)) : FormValues :=
  l.foldl (fun acc p => valuesSet acc p.1 p.2) f

/-- Sequence of `Add` calls on one key, one per value. -/
def addList (f : FormValues) (k : String) (vs : List String) : FormValues :=
  vs.foldl (fun acc v => valuesAdd acc k v) f

/-! ### `serializeMatchups` and `BuildFormBody` (`set_period_matchups.go`) -/

/-- The serialized form of one period: period number and pairs joined by bars. -/
def formatMatchupEntry (p : Int) (pairs : List MatchupPair) : String :=
  String.intercalate "|" (intDecString p :: pairs.map (fun pr => pr.AwayTeamID ++ "_" ++ pr.HomeTeamID))

/-- serializeMatchups: one entry per period of the matchup map, periods sorted
ascending (Go `sort.Ints`), each entry built from the period and its stored
pairs in order. -/
def serializeMatchups (setup : LeagueSetupMatchups) : List String :=
  let periods := List.insertionSort (fun a b => a ≤ b) (setup.Matchups.map Prod.fst)
  periods.map (fun p => formatMatchupEntry p ((mapLookup setup.Matchups p).getD []))

/-- The constant fields set by BuildFormBody after the extracted categories:
the hardcoded block plus the two matchup-edit metadata fields. -/
def hardcodedFields (period : Int) : List (String × String) :=
  [("tabId", "Matchups"), ("gotoNextPage", "false"), ("divisionName", ""),
   ("inviteMessage", ""), ("calculatedHeadToHeadOpponentType", "1"),
   ("playoffMatchupSetConfigId", ""),
   ("matchupScoringPeriodToEdit", intDecString period),
   ("matchupsEditedManually", "true")]

/-- BuildFormBody: assemble the full form body from the snapshot, overriding the
h2hConfigChangesMade hidden field to "y". -/
def BuildFormBody (setup : LeagueSetupMatchups) (period : Int) : FormValues :=
  let cfg := setup.FormConfig
  let f1 := cfg.HiddenFields.foldl
    (fun acc p => if p.1 == "h2hConfigChangesMade" then valuesSet acc p.1 "y"
                  else valuesSet acc p.1 p.2) []
  let f2 := setList f1 cfg.SelectFields
  let f3 := setList f2 cfg.CheckboxFields
  let f4 := setList f3 (cfg.TeamNames.map (fun p => ("teamName_" ++ p.1, p.2)))
  let f5 := setList f4 (cfg.TeamShortNames.map (fun p => ("teamShortName_" ++ p.1, p.2)))
  let f6 := setList f5 cfg.OwnerEmailFields
  let f7 := setList f6 (cfg.DivisionNames.map (fun p => ("divisionName_" ++ p.1, p.2)))
  let f8 := addList f7 "~~divisions" cfg.Divisions
  let f9 := setList f8 (hardcodedFields period)
  addList f9 "matchups" (serializeMatchups setup)

/-- The validate-mutate-serialize part of SetPeriodMatchups, before the POST.
The pair returned is the snapshot as left by the call (Go mutates it in place)
together with either the form body handed to the POST or the validation
error. -/
def SetPeriodMatchupsCore (setup : LeagueSetupMatchups) (period : Int)
    (matchups : List MatchupPair) : LeagueSetupMatchups × Except String FormValues :=
  if (mapLookup setup.Matchups period).isNone then
    (setup, Except.error ("period " ++ intDecString period ++ " not found in setup matchups"))
  else if matchups.isEmpty then
    (setup, Except.error "matchups must not be empty")
  else
    let setup' := { setup with Matchups := mapSet setup.Matchups period matchups }
    (setup', Except.ok (BuildFormBody setup' period))

/-- The diagnostic snippet taken from a response body: at most its first 500
characters, with an ellipsis marker when truncated. -/
def responseSnippet (body : String) : String :=
  if body.length > 500 then body.take 500 ++ "..." else body

/-- Classification of the POST response in SetPeriodMatchups: `none` is
success; any status other than 302 (`http.StatusFound`) is an error carrying
the bounded body snippet. -/
def classifySubmitResponse (statusCode : Nat) (body : String) : Option String :=
  if statusCode ≠ 302 then
    some ("expected 302 redirect on success, got status " ++ natDecString statusCode
      ++ "; body: " ++ responseSnippet body)
  else none

/-- Modelled from the spec: the spec calls "a redirect status" the only success
signal. The HTTP redirect statuses (the ones a Go HTTP client follows) are
301, 302, 303, 307 and 308. -/
def isRedirectStatus (statusCode : Nat) : Bool :=
  statusCode == 301 || statusCode == 302 || statusCode == 303 ||
  statusCode == 307 || statusCode == 308

/-! ### Owner email fields (`parseFormConfig`, lines 344-354) -/

/-- The composite owner-email form key. -/
def ownerEmailKey (teamID : String) (o : TeamOwner) : String :=
  "teamOwnerEmail," ++ o.Email ++ "," ++ teamID ++ "," ++ o.UserID

/-- The owner-email entry contributed by one owner: present exactly when the
owner is not a commissioner and has not joined. -/
def ownerEmailEntry (teamID : String) (o : TeamOwner) : Option (String × String) :=
  if !o.IsCommissioner && !o.JoinedLeague then some (ownerEmailKey teamID o, o.Email)
  else none

/-- The OwnerEmailFields map built by parseFormConfig from the parsed teams. -/
def buildOwnerEmailFields (teams : List LeagueSetupTeam) : List (String × String) :=
  teams.foldl
    (fun acc t => t.Owners.foldl
      (fun acc2 o =>
        match ownerEmailEntry t.TeamID o with
        | some kv => mapSet acc2 kv.1 kv.2
        | none => acc2) acc) []

/-! ### Character classes used by the regular-expression scans -/

/-- The single-quote character filtered by parseFormConfig. -/
def quoteChar : Char := '\x27'

/-- Go regexp whitespace class. -/
def isSpaceChar (c : Char) : Bool :=
  c = ' ' || c = '\t' || c = '\n' || c = '\r' || c = '\x0c'

/-- Go regexp digit class. -/
def isDigitChar (c : Char) : Bool := '0' ≤ c && c ≤ '9'

/-- The alphanumeric class of the division-id capture. -/
def isAlnumChar (c : Char) : Bool :=
  ('a' ≤ c && c ≤ 'z') || ('A' ≤ c && c ≤ 'Z') || isDigitChar c

/-- Go regexp word class. -/
def isWordChar (c : Char) : Bool := isAlnumChar c || c = '_'

/-! ### Generic leftmost scanning drivers -/

/-- Split a character list at the first occurrence of a substring, returning
the text before it and the text after it. -/
def splitOnSubstr (pat : List Char) : List Char → Option (List Char × List Char)
  | [] => if pat.isEmpty then some ([], []) else none
  | l@(c :: cs) =>
    if pat.isPrefixOf l then some ([], l.drop pat.length)
    else
      match splitOnSubstr pat cs with
      | some (pre, post) => some (c :: pre, post)
      | none => none

/-- Occurrences of a literal reachable from the current position through a gap
of non-bracket characters, which is how a greedy in-tag character class
followed by the literal can place it; returned as the suffixes after each
occurrence, in left-to-right order. -/
def gapMatches (pat : List Char) : List Char → List (List Char)
  | [] => []
  | l@(c :: cs) =>
    (if pat.isPrefixOf l then [l.drop pat.length] else []) ++
    (if c = '>' then [] else gapMatches pat cs)

/-- Like gapMatches but also reporting the character just before each
occurrence (none when the occurrence starts at the scan origin), needed for
word-boundary checks. -/
def gapMatchesPrevAux (pat : List Char) (prev : Option Char) :
    List Char → List (Option Char × List Char)
  | [] => []
  | l@(c :: cs) =>
    (if pat.isPrefixOf l then [(prev, l.drop pat.length)] else []) ++
    (if c = '>' then [] else gapMatchesPrevAux pat (some c) cs)

/-- Leftmost non-overlapping scanning: try a match at every position from the
left; after a successful match resume right after its end (the skip counter
carries the remaining length of the match). -/
def scanCore {α : Type} (tryFn : List Char → Option (α × List Char)) :
    Nat → List Char → List α
  | k + 1, _ :: cs => scanCore tryFn k cs
  | _, [] => []
  | 0, l@(_ :: cs) =>
    match tryFn l with
    | some (a, rest) => a :: scanCore tryFn (l.length - rest.length - 1) cs
    | none => scanCore tryFn 0 cs

/-- All leftmost non-overlapping matches (Go FindAllString-style). -/
def scanAll {α : Type} (tryFn : List Char → Option (α × List Char)) (l : List Char) : List α :=
  scanCore tryFn 0 l

/-- The first match only (Go FindStringSubmatch-style). -/
def scanFirst {α : Type} (tryFn : List Char → Option α) : List Char → Option α
  | [] => none
  | l@(_ :: cs) =>
    match tryFn l with
    | some a => some a
    | none => scanFirst tryFn cs

/-- Consume a literal prefix. -/
def checkPrefixDrop (pat l : List Char) : Option (List Char) :=
  if pat.isPrefixOf l then some (l.drop pat.length) else none

/-! ### Attribute captures on input tags -/

/-- Leftmost occurrence of an attribute literal followed by a double-quoted
capture, as matched by the name/value capture patterns; the capture must be
nonempty unless the pattern allows an empty one. -/
def firstAttrCapture (pat : List Char) (allowEmpty : Bool) : List Char → Option (List Char)
  | [] => none
  | l@(_ :: cs) =>
    if pat.isPrefixOf l then
      let r := l.drop pat.length
      let cap := r.takeWhile (fun c => c ≠ '"')
      match r.dropWhile (fun c => c ≠ '"') with
      | _ :: _ =>
        if cap.isEmpty && !allowEmpty then firstAttrCapture pat allowEmpty cs
        else some cap
      | [] => firstAttrCapture pat allowEmpty cs
    else firstAttrCapture pat allowEmpty cs

/-- Ordered markers that must all occur inside a tag window, each at or after
the end of the previous one. -/
def markersContained : List (List Char) → List Char → Bool
  | [], _ => true
  | p :: ps, w =>
    match splitOnSubstr p w with
    | some (_, after) => markersContained ps after
    | none => false

/-- Match of an input-tag pattern at the current position: the tag opener, a
window of non-bracket characters containing the markers in order, and the
closing bracket. Returns the window and the remainder after the tag. -/
def tryInputTag (markers : List (List Char)) (l : List Char) : Option (List Char × List Char) :=
  if "<input".data.isPrefixOf l then
    let r := l.drop 6
    let w := r.takeWhile (fun c => c ≠ '>')
    match r.dropWhile (fun c => c ≠ '>') with
    | _ :: rest => if markersContained markers w then some (w, rest) else none
    | [] => none
  else none

/-- Marker of the hidden-input scan. -/
def hiddenMarker : List Char := "type=\"hidden\"".data

/-- Marker of the text-input scan. -/
def textMarker : List Char := "type=\"text\"".data

/-- Markers of the checked-checkbox scan. -/
def checkboxMarkers : List (List Char) := ["type=\"checkbox\"".data, "checked".data]

/-! ### parseMatchupMap (`get_league_setup_matchups.go`, lines 97-141) -/

/-- Match of the matchupMap header at the current position: the var keyword,
mandatory whitespace, the variable name, an equals sign and the opening brace,
each with optional whitespace; returns the remainder after the brace. -/
def tryMatchupHeader (l : List Char) : Option (List Char) :=
  if "var".data.isPrefixOf l then
    let r1 := l.drop 3
    if (r1.takeWhile isSpaceChar).isEmpty then none
    else
      let r2 := r1.dropWhile isSpaceChar
      if "matchupMap".data.isPrefixOf r2 then
        match (r2.drop 10).dropWhile isSpaceChar with
        | '=' :: r4 =>
          match r4.dropWhile isSpaceChar with
          | c :: r5 => if c = '\x7b' then some r5 else none
          | [] => none
        | _ => none
      else none
  else none

/-- First match of the matchupMap block pattern: the header followed by the
lazily captured content up to the first closing brace-semicolon. -/
def findMatchupBlock (l : List Char) : Option (List Char) :=
  scanFirst
    (fun s =>
      match tryMatchupHeader s with
      | some rest =>
        match splitOnSubstr ['\x7d', ';'] rest with
        | some (content, _) => some content
        | none => none
      | none => none) l

/-- Match of one period entry: a quoted digit run, optional whitespace around
the colon, and the bracketed array content captured lazily on one line.
Returns the digit capture, the array capture and the remainder. -/
def tryPeriodEntry (l : List Char) : Option ((List Char × List Char) × List Char) :=
  match l with
  | q :: r0 =>
    if q = quoteChar then
      let digits := r0.takeWhile isDigitChar
      if digits.isEmpty then none
      else
        match r0.dropWhile isDigitChar with
        | c1 :: r1 =>
          if c1 = quoteChar then
            match r1.dropWhile isSpaceChar with
            | ':' :: r2 =>
              match r2.dropWhile isSpaceChar with
              | '[' :: r3 =>
                let content := r3.takeWhile (fun c => c ≠ ']' && c ≠ '\n')
                match r3.dropWhile (fun c => c ≠ ']' && c ≠ '\n') with
                | ']' :: r4 => some ((digits, content), r4)
                | _ => none
              | _ => none
            | _ => none
          else none
        | [] => none
    else none
  | [] => none

/-- Match of one single-quoted nonempty string. -/
def tryQuoted (l : List Char) : Option (List Char × List Char) :=
  match l with
  | q :: r0 =>
    if q = quoteChar then
      let body := r0.takeWhile (fun c => c ≠ quoteChar)
      if body.isEmpty then none
      else
        match r0.dropWhile (fun c => c ≠ quoteChar) with
        | _ :: r1 => some (body, r1)
        | [] => none
    else none
  | [] => none

/-- Numeric value of a digit run. -/
def digitsVal (l : List Char) : Nat :=
  l.foldl (fun a c => 10 * a + (c.toNat - 48)) 0

/-- Go strconv.Atoi on a digit capture: fails only past the 64-bit range. -/
def atoiDigits (l : List Char) : Except String Int :=
  if digitsVal l ≤ 9223372036854775807 then Except.ok (Int.ofNat (digitsVal l))
  else Except.error ("invalid period number " ++ String.mk l)

/-- Go strings.SplitN on the underscore with limit 2, demanding exactly two
parts: away is the text before the first underscore, home the whole
remainder. -/
def splitPair (l : List Char) : Except String MatchupPair :=
  if l.contains '_' then
    Except.ok
      ⟨String.mk (l.takeWhile (fun c => c ≠ '_')),
       String.mk ((l.dropWhile (fun c => c ≠ '_')).drop 1)⟩
  else Except.error ("invalid matchup pair format: " ++ String.mk l)

/-- Split every captured pair string of one period, stopping at the first
failure, in order. -/
def parsePairList : List (List Char) → Except String (List MatchupPair)
  | [] => Except.ok []
  | p :: ps =>
    match splitPair p with
    | Except.error e => Except.error e
    | Except.ok mp =>
      match parsePairList ps with
      | Except.error e => Except.error e
      | Except.ok rest => Except.ok (mp :: rest)

/-- Fold of the period entries into the matchup map, stopping at the first
failure. -/
def buildMatchupEntries :
    List (List Char × List Char) → List (Int × List MatchupPair) →
    Except String (List (Int × List MatchupPair))
  | [], acc => Except.ok acc
  | (digits, arr) :: rest, acc =>
    match atoiDigits digits with
    | Except.error e => Except.error e
    | Except.ok period =>
      match parsePairList (scanAll tryQuoted arr) with
      | Except.error e => Except.error e
      | Except.ok pairs => buildMatchupEntries rest (mapSet acc period pairs)

/-- parseMatchupMap: locate the matchupMap block, extract every period entry,
split every pair string, and build the period map. -/
def parseMatchupMap (html : String) : Except String (List (Int × List MatchupPair)) :=
  match findMatchupBlock html.data with
  | none => Except.error "matchupMap not found in HTML"
  | some content =>
    let entries := scanAll tryPeriodEntry content
    if entries.isEmpty then Except.error "no periods found in matchupMap"
    else buildMatchupEntries entries []

/-! ### parseTeams (`get_league_setup_matchups.go`, lines 152-201) -/

/-- The seven captures of one addTeam() match. -/
structure AddTeamMatch where
  name : String
  shortName : String
  email : String
  teamID : String
  userID : String
  isCommStr : String
  joinedStr : String
  deriving DecidableEq

/-- The literal opening of the addTeam pattern, up to the first field quote. -/
def addTeamLit : List Char := "addTeam(\x27".data

/-- Capture of one single-quoted field body starting at the capture position:
the possibly empty run up to the closing quote, which must exist. -/
def tryQuotedField (l : List Char) : Option (List Char × List Char) :=
  let body := l.takeWhile (fun c => c ≠ quoteChar)
  match l.dropWhile (fun c => c ≠ quoteChar) with
  | _ :: r => some (body, r)
  | [] => none

/-- Separator between quoted fields: a comma, optional whitespace and the next
opening quote. -/
def trySepQuote (l : List Char) : Option (List Char) :=
  match l with
  | ',' :: r =>
    match r.dropWhile isSpaceChar with
    | c :: r2 => if c = quoteChar then some r2 else none
    | [] => none
  | _ => none

/-- The true-or-false alternation, leftmost alternative first. -/
def tryBoolLit (l : List Char) : Option (List Char × List Char) :=
  if "true".data.isPrefixOf l then some ("true".data, l.drop 4)
  else if "false".data.isPrefixOf l then some ("false".data, l.drop 5)
  else none

/-- Separator before a boolean capture: comma and optional whitespace. -/
def trySepBool (l : List Char) : Option (List Char × List Char) :=
  match l with
  | ',' :: r => tryBoolLit (r.dropWhile isSpaceChar)
  | _ => none

/-- Match of one addTeam() call with its seven captures. -/
def tryAddTeam (l : List Char) : Option (AddTeamMatch × List Char) := do
  let l0 ← checkPrefixDrop addTeamLit l
  let (f1, r1) ← tryQuotedField l0
  let r1b ← trySepQuote r1
  let (f2, r2) ← tryQuotedField r1b
  let r2b ← trySepQuote r2
  let (f3, r3) ← tryQuotedField r2b
  let r3b ← trySepQuote r3
  let (f4, r4) ← tryQuotedField r3b
  let r4b ← trySepQuote r4
  let (f5, r5) ← tryQuotedField r4b
  let (b1, r6) ← trySepBool r5
  let (b2, r7) ← trySepBool r6
  pure (⟨String.mk f1, String.mk f2, String.mk f3, String.mk f4, String.mk f5,
         String.mk b1, String.mk b2⟩, r7)

/-- All addTeam() matches of the page, in order. -/
def scanAddTeams (html : String) : List AddTeamMatch :=
  scanAll tryAddTeam html.data

/-- The owner record built from one match and its assigned user id. -/
def mkOwner (m : AddTeamMatch) (uid : String) : TeamOwner :=
  ⟨m.email, uid, m.isCommStr == "true", m.joinedStr == "true"⟩

/-- Append an owner to the first team with the given id. -/
def addOwnerToTeam : List LeagueSetupTeam → String → TeamOwner → List LeagueSetupTeam
  | [], _, _ => []
  | t :: ts, tid, o =>
    if t.TeamID == tid then { t with Owners := t.Owners ++ [o] } :: ts
    else t :: addOwnerToTeam ts tid o

/-- The grouping loop of parseTeams: substitute synthetic ids for the NULL
placeholder with the per-call counter, then group each match by team id in
first-seen order, appending one owner per match. -/
def parseTeamsLoop : List AddTeamMatch → Nat → List LeagueSetupTeam → List LeagueSetupTeam
  | [], _, acc => acc
  | m :: ms, ctr, acc =>
    let uid := if m.userID == "NULL" then "NULL_" ++ natDecString ctr else m.userID
    let ctr' := if m.userID == "NULL" then ctr + 1 else ctr
    let o := mkOwner m uid
    let acc' :=
      if acc.any (fun t => t.TeamID == m.teamID) then addOwnerToTeam acc m.teamID o
      else acc ++ [⟨m.teamID, m.name, m.shortName, [o]⟩]
    parseTeamsLoop ms ctr' acc'

/-- parseTeams: scan the addTeam() calls and group them into teams. -/
def parseTeams (html : String) : Except String (List LeagueSetupTeam) :=
  let ms := scanAddTeams html
  if ms.isEmpty then Except.error "no addTeam() calls found in HTML"
  else Except.ok (parseTeamsLoop ms 0 [])

/-- The per-match user-id substitution of parseTeamsLoop, isolated: each match
paired with its assigned user id, threading the counter. -/
def substNulls : Nat → List AddTeamMatch → List (AddTeamMatch × String)
  | _, [] => []
  | ctr, m :: ms =>
    if m.userID == "NULL" then (m, "NULL_" ++ natDecString ctr) :: substNulls (ctr + 1) ms
    else (m, m.userID) :: substNulls ctr ms

/-! ### parseDivisions (`get_league_setup_matchups.go`, lines 206-258) -/

/-- The division-name attribute literal inside the input tag pattern. -/
def divNameLit : List Char := "name=\"divisionName_".data

/-- Capture of a double-quoted possibly empty value body starting at the
capture position. -/
def tryDoubleQuotedValue (l : List Char) : Option (List Char × List Char) :=
  let body := l.takeWhile (fun c => c ≠ '"')
  match l.dropWhile (fun c => c ≠ '"') with
  | _ :: r => some (body, r)
  | [] => none

/-- Match of one division-name input at the current position: the input
opener, the name attribute with a nonempty alphanumeric id capture, then the
value attribute, both placed after greedy in-tag gaps, so the latest
workable occurrence of each attribute literal is preferred. -/
def tryDivName (l : List Char) : Option ((List Char × List Char) × List Char) :=
  if "<input".data.isPrefixOf l then
    (gapMatches divNameLit (l.drop 6)).reverse.findSome?
      (fun afterPat =>
        let idc := afterPat.takeWhile isAlnumChar
        if idc.isEmpty then none
        else
          match afterPat.drop idc.length with
          | c :: r1 =>
            if c = '"' then
              (gapMatches "value=\"".data r1).reverse.findSome?
                (fun afterV =>
                  match tryDoubleQuotedValue afterV with
                  | some (v, r2) => some ((idc, v), r2)
                  | none => none)
            else none
          | [] => none)
  else none

/-- The literal opening of the division-membership removal directive. -/
def removeTeamLit : List Char := "__removeTeamFromDivision(\x27tbl_".data

/-- Match of one removal directive with its division-id and team-id captures. -/
def tryRemoveTeam (l : List Char) : Option ((List Char × List Char) × List Char) := do
  let r0 ← checkPrefixDrop removeTeamLit l
  let divId := r0.takeWhile isWordChar
  if divId.isEmpty then none
  else
    match r0.drop divId.length with
    | c :: r1 =>
      if c = quoteChar then do
        let r2 ← trySepQuote r1
        let teamId := r2.takeWhile isWordChar
        if teamId.isEmpty then none
        else
          match r2.drop teamId.length with
          | c2 :: r3 => if c2 = quoteChar then some ((divId, teamId), r3) else none
          | [] => none
      else none
    | [] => none

/-- Insert a division on first sight, keeping first-seen order and the first
name seen for an id. -/
def divInsert (divs : List LeagueSetupDivision) (divId nm : String) : List LeagueSetupDivision :=
  if divs.any (fun d => d.DivisionID == divId) then divs
  else divs ++ [⟨divId, nm, []⟩]

/-- Record a team membership on a known division, skipping duplicates. -/
def divAddTeam : List LeagueSetupDivision → String → String → List LeagueSetupDivision
  | [], _, _ => []
  | d :: ds, divId, teamId =>
    if d.DivisionID == divId then
      (if d.TeamIDs.any (fun x => x == teamId) then d
       else { d with TeamIDs := d.TeamIDs ++ [teamId] }) :: ds
    else d :: divAddTeam ds divId teamId

/-- parseDivisions: collect division names in first-seen order, then team
memberships from the removal directives. -/
def parseDivisions (html : String) : Except String (List LeagueSetupDivision) :=
  let nameMatches := scanAll tryDivName html.data
  if nameMatches.isEmpty then Except.error "no division names found in HTML"
  else
    let divs := nameMatches.foldl
      (fun acc p => divInsert acc (String.mk p.1) (String.mk p.2)) []
    let teamMatches := scanAll tryRemoveTeam html.data
    Except.ok (teamMatches.foldl
      (fun acc p => divAddTeam acc (String.mk p.1) (String.mk p.2)) divs)

/-! ### parseSelectFields (`get_league_setup_matchups.go`, lines 374-402) -/

/-- Match of one select element: opener, name attribute after a greedy in-tag
gap, tag close, and the lazily captured body up to the first closing tag. -/
def trySelect (l : List Char) : Option ((List Char × List Char) × List Char) :=
  if "<select".data.isPrefixOf l then
    (gapMatches "name=\"".data (l.drop 7)).reverse.findSome?
      (fun afterN =>
        let nm := afterN.takeWhile (fun c => c ≠ '"')
        if nm.isEmpty then none
        else
          match afterN.dropWhile (fun c => c ≠ '"') with
          | _ :: r1 =>
            match r1.dropWhile (fun c => c ≠ '>') with
            | _ :: r2 =>
              match splitOnSubstr "</select>".data r2 with
              | some (body, rest) => some ((nm, body), rest)
              | none => none
            | [] => none
          | [] => none)
  else none

/-- First option pattern: value capture before the selected attribute. -/
def trySelOpt1 (l : List Char) : Option (List Char × List Char) :=
  if "<option".data.isPrefixOf l then
    (gapMatches "value=\"".data (l.drop 7)).reverse.findSome?
      (fun afterV =>
        let v := afterV.takeWhile (fun c => c ≠ '"')
        match afterV.dropWhile (fun c => c ≠ '"') with
        | _ :: r1 =>
          match (gapMatches "selected".data r1).head? with
          | some afterSel =>
            match afterSel.dropWhile (fun c => c ≠ '>') with
            | _ :: r2 => some (v, r2)
            | [] => none
          | none => none
        | [] => none)
  else none

/-- Second option pattern: selected attribute before the value capture. -/
def trySelOpt2 (l : List Char) : Option (List Char × List Char) :=
  if "<option".data.isPrefixOf l then
    (gapMatches "selected".data (l.drop 7)).reverse.findSome?
      (fun afterSel =>
        (gapMatches "value=\"".data afterSel).reverse.findSome?
          (fun afterV =>
            let v := afterV.takeWhile (fun c => c ≠ '"')
            match afterV.dropWhile (fun c => c ≠ '"') with
            | _ :: r1 =>
              match r1.dropWhile (fun c => c ≠ '>') with
              | _ :: r2 => some (v, r2)
              | [] => none
            | [] => none))
  else none

/-- Third option pattern: value capture then a bare selected word between
word boundaries, without a demanded tag close. -/
def trySelOpt3 (l : List Char) : Option (List Char × List Char) :=
  if "<option".data.isPrefixOf l then
    (gapMatches "value=\"".data (l.drop 7)).reverse.findSome?
      (fun afterV =>
        let v := afterV.takeWhile (fun c => c ≠ '"')
        match afterV.dropWhile (fun c => c ≠ '"') with
        | _ :: r1 =>
          (gapMatchesPrevAux "selected".data none r1).reverse.findSome?
            (fun pr =>
              let okBefore :=
                match pr.1 with
                | none => true
                | some c => !isWordChar c
              let okAfter :=
                match pr.2 with
                | [] => true
                | c :: _ => !isWordChar c
              if okBefore && okAfter then some (v, pr.2) else none)
        | [] => none)
  else none

/-- The selected option value of one select body: the three notations tried in
order, first match of each. -/
def selectedOptionValue (body : List Char) : Option (List Char) :=
  match scanFirst (fun s => (trySelOpt1 s).map Prod.fst) body with
  | some v => some v
  | none =>
    match scanFirst (fun s => (trySelOpt2 s).map Prod.fst) body with
    | some v => some v
    | none => scanFirst (fun s => (trySelOpt3 s).map Prod.fst) body

/-! ### parseFormConfig (`get_league_setup_matchups.go`, lines 262-371) -/

/-- The empty form configuration parseFormConfig starts from. -/
def emptyFormConfig : LeagueSetupFormConfig := ⟨[], [], [], [], [], [], [], []⟩

/-- Processing of one hidden-input window: extract name and optional value,
drop the tag when either contains a quote character, and route names with the
underscore prefix into the checkbox-shadow bucket. -/
def processHiddenWindow (cfg : LeagueSetupFormConfig) (w : List Char) : LeagueSetupFormConfig :=
  match firstAttrCapture "name=\"".data false w with
  | none => cfg
  | some nameC =>
    let valueC := (firstAttrCapture "value=\"".data true w).getD []
    if nameC.contains quoteChar || valueC.contains quoteChar then cfg
    else if "_".data.isPrefixOf nameC then
      { cfg with CheckboxFields := mapSet cfg.CheckboxFields (String.mk nameC) (String.mk valueC) }
    else
      { cfg with HiddenFields := mapSet cfg.HiddenFields (String.mk nameC) (String.mk valueC) }

/-- Fold of the hidden-input scan over the configuration. -/
def applyHiddenScan (cfg : LeagueSetupFormConfig) (ws : List (List Char)) : LeagueSetupFormConfig :=
  ws.foldl processHiddenWindow cfg

/-- Fold of the select scan: record the selected value of each named select
that has one. -/
def applySelectScan (cfg : LeagueSetupFormConfig) (sels : List (List Char × List Char)) :
    LeagueSetupFormConfig :=
  sels.foldl
    (fun acc p =>
      match selectedOptionValue p.2 with
      | some v => { acc with SelectFields := mapSet acc.SelectFields (String.mk p.1) (String.mk v) }
      | none => acc) cfg

/-- Processing of one text-input window: both attributes demanded, and only
the two allow-listed date fields stored. -/
def processTextWindow (cfg : LeagueSetupFormConfig) (w : List Char) : LeagueSetupFormConfig :=
  match firstAttrCapture "name=\"".data false w, firstAttrCapture "value=\"".data true w with
  | some nameC, some valueC =>
    if nameC = "startDate".data || nameC = "endDate".data then
      { cfg with HiddenFields := mapSet cfg.HiddenFields (String.mk nameC) (String.mk valueC) }
    else cfg
  | _, _ => cfg

/-- Processing of one checked-checkbox window: name demanded, stored only when
a value attribute is present. -/
def processCheckboxWindow (cfg : LeagueSetupFormConfig) (w : List Char) : LeagueSetupFormConfig :=
  match firstAttrCapture "name=\"".data false w with
  | some nameC =>
    match firstAttrCapture "value=\"".data true w with
    | some valueC =>
      { cfg with HiddenFields := mapSet cfg.HiddenFields (String.mk nameC) (String.mk valueC) }
    | none => cfg
  | none => cfg

/-- parseFormConfig: the four scans in source order, then the team, owner and
division derived fields. -/
def parseFormConfig (html : String) (teams : List LeagueSetupTeam)
    (divisions : List LeagueSetupDivision) : LeagueSetupFormConfig :=
  let cs := html.data
  let c1 := applyHiddenScan emptyFormConfig (scanAll (tryInputTag [hiddenMarker]) cs)
  let c2 := applySelectScan c1 (scanAll trySelect cs)
  let c3 := (scanAll (tryInputTag [textMarker]) cs).foldl processTextWindow c2
  let c4 := (scanAll (tryInputTag checkboxMarkers) cs).foldl processCheckboxWindow c3
  let c5 := { c4 with
    TeamNames := teams.foldl
      (fun acc (t : LeagueSetupTeam) => mapSet acc t.TeamID t.Name) c4.TeamNames,
    TeamShortNames := teams.foldl
      (fun acc (t : LeagueSetupTeam) => mapSet acc t.TeamID t.ShortName) c4.TeamShortNames }
  let c6 := { c5 with OwnerEmailFields := buildOwnerEmailFields teams }
  let c7 := { c6 with
    DivisionNames := divisions.foldl
      (fun acc (d : LeagueSetupDivision) => mapSet acc d.DivisionID d.Name) c6.DivisionNames }
  { c7 with
    Divisions := divisions.foldl
      (fun acc (d : LeagueSetupDivision) =>
        if d.TeamIDs.isEmpty then acc
        else acc ++ [d.DivisionID ++ "=" ++ String.intercalate "|" d.TeamIDs]) [] }

/-- The parse-and-assemble part of GetLeagueSetupMatchups, after the page
fetch: the four parsers in source order, each error tagged with its stage. -/
def assembleFromHTML (html : String) : Except String LeagueSetupMatchups := do
  let matchups ← (parseMatchupMap html).mapError (fun e => "failed to parse matchup map: " ++ e)
  let teams ← (parseTeams html).mapError (fun e => "failed to parse teams: " ++ e)
  let divisions ← (parseDivisions html).mapError (fun e => "failed to parse divisions: " ++ e)
  Except.ok ⟨teams, divisions, matchups, parseFormConfig html teams divisions⟩


/-! ### Lemmas: decimal strings -/

theorem charDigit_toNat (m : Nat) (h : m < 10) : (Char.ofNat (48 + m)).toNat = 48 + m := by
  interval_cases m <;> decide

theorem decDigitsAux_val (fuel : Nat) : ∀ n : Nat, n < fuel →
    digitsVal (decDigitsAux fuel n) = n := by
  induction fuel with
  | zero => intro n h; omega
  | succ fuel ih =>
    intro n h
    by_cases h10 : n < 10
    · simp only [decDigitsAux, if_pos h10, digitsVal, List.foldl_cons, List.foldl_nil]
      rw [charDigit_toNat n h10]
      omega
    · have hd : n / 10 < fuel := by
        have h2 : n / 10 < n := Nat.div_lt_self (by omega) (by omega)
        omega
      simp only [decDigitsAux, if_neg h10]
      simp only [digitsVal] at *
      rw [List.foldl_append]
      simp only [List.foldl_cons, List.foldl_nil]
      rw [ih (n / 10) hd]
      rw [charDigit_toNat (n % 10) (Nat.mod_lt _ (by omega))]
      omega

theorem digitsVal_decDigits (n : Nat) : digitsVal (decDigits n) = n :=
  decDigitsAux_val (n + 1) n (Nat.lt_succ_self n)

theorem natDecString_inj {m n : Nat} (h : natDecString m = natDecString n) : m = n := by
  have hd : decDigits m = decDigits n := congrArg String.data h
  have h1 := digitsVal_decDigits m
  rw [hd, digitsVal_decDigits] at h1
  omega

theorem decDigitsAux_ne_nil (fuel n : Nat) (h : n < fuel) : decDigitsAux fuel n ≠ [] := by
  cases fuel with
  | zero => omega
  | succ fuel =>
    by_cases h10 : n < 10 <;> simp [decDigitsAux, h10]

theorem natDecString_length_pos (n : Nat) : 0 < (natDecString n).length := by
  have h := decDigitsAux_ne_nil (n + 1) n (Nat.lt_succ_self n)
  simp only [natDecString, decDigits, String.length]
  cases hE : decDigitsAux (n + 1) n with
  | nil => exact absurd hE h
  | cons c cs => simp

/-! ### Lemmas: Go map association lists -/

theorem mapLookup_nil {κ ν : Type} [BEq κ] (k : κ) :
    mapLookup ([] : List (κ × ν)) k = none := rfl

theorem bool_eq_false_of_ne_true {b : Bool} (h : ¬b = true) : b = false := by
  cases b
  · rfl
  · exact absurd rfl h

theorem mapLookup_cons {κ ν : Type} [BEq κ] (p : κ × ν) (rest : List (κ × ν)) (k : κ) :
    mapLookup (p :: rest) k = if p.1 == k then some p.2 else mapLookup rest k := by
  cases hb : p.1 == k with
  | true => simp [mapLookup, List.find?_cons, hb]
  | false => simp [mapLookup, List.find?_cons, hb]

theorem mapLookup_eq_none_iff {κ ν : Type} [BEq κ] [LawfulBEq κ]
    (m : List (κ × ν)) (k : κ) :
    mapLookup m k = none ↔ k ∉ m.map Prod.fst := by
  induction m with
  | nil => simp [mapLookup_nil]
  | cons p rest ih =>
    rw [mapLookup_cons]
    by_cases hp : p.1 = k
    · simp [hp]
    · have hb : (p.1 == k) = false := by simpa using hp
      simp only [hb, Bool.false_eq_true, if_false, List.map_cons, List.mem_cons, ih]
      constructor
      · rintro h (h1 | h2)
        · exact hp h1.symm
        · exact h h2
      · intro h
        exact fun hmem => h (Or.inr hmem)

theorem mapLookup_eq_some_of_mem {κ ν : Type} [BEq κ] [LawfulBEq κ]
    {m : List (κ × ν)} {k : κ} {v : ν}
    (hnd : (m.map Prod.fst).Nodup) (hm : (k, v) ∈ m) : mapLookup m k = some v := by
  induction m with
  | nil => simp at hm
  | cons p rest ih =>
    simp only [List.map_cons, List.nodup_cons] at hnd
    rw [mapLookup_cons]
    rcases List.mem_cons.mp hm with h1 | h2
    · rw [← h1]
      simp
    · have hp : p.1 ≠ k := by
        intro he
        exact hnd.1 (he ▸ (List.mem_map.mpr ⟨(k, v), h2, rfl⟩))
      have hb : (p.1 == k) = false := by simpa using hp
      rw [hb]
      simp only [Bool.false_eq_true, if_false]
      exact ih hnd.2 h2

theorem mem_of_mapLookup_eq_some {κ ν : Type} [BEq κ] [LawfulBEq κ]
    {m : List (κ × ν)} {k : κ} {v : ν}
    (h : mapLookup m k = some v) : (k, v) ∈ m := by
  induction m with
  | nil => simp [mapLookup_nil] at h
  | cons p rest ih =>
    rw [mapLookup_cons] at h
    by_cases hp : (p.1 == k) = true
    · rw [if_pos hp] at h
      have h1 : p.1 = k := by simpa using hp
      have h2 : p.2 = v := by simpa using h
      exact List.mem_cons.mpr (Or.inl (by rw [← h1, ← h2]))
    · rw [if_neg hp] at h
      exact List.mem_cons.mpr (Or.inr (ih h))

theorem mapLookup_mapReplace_self {κ ν : Type} [BEq κ] [LawfulBEq κ]
    (m : List (κ × ν)) (k : κ) (v : ν) (h : m.any (fun p => p.1 == k) = true) :
    mapLookup (m.map (fun p => if p.1 == k then (p.1, v) else p)) k = some v := by
  induction m with
  | nil => simp at h
  | cons p rest ih =>
    simp only [List.any_cons, Bool.or_eq_true] at h
    cases hb : p.1 == k with
    | true => simp [List.map_cons, mapLookup_cons, hb]
    | false =>
      simp only [List.map_cons, mapLookup_cons, hb, Bool.false_eq_true, if_false]
      rcases h with h | h
      · rw [hb] at h
        exact absurd h (by simp)
      · exact ih h

theorem mapLookup_mapReplace_ne {κ ν : Type} [BEq κ] [LawfulBEq κ]
    (m : List (κ × ν)) (k k' : κ) (v : ν) (h : k' ≠ k) :
    mapLookup (m.map (fun p => if p.1 == k then (p.1, v) else p)) k' = mapLookup m k' := by
  induction m with
  | nil => rfl
  | cons p rest ih =>
    by_cases hb : (p.1 == k) = true
    · have h1 : p.1 = k := by simpa using hb
      have hb' : (p.1 == k') = false := by simp [h1]; exact fun e => h e.symm
      simp only [List.map_cons, if_pos hb, mapLookup_cons, hb']
      simpa [hb'] using ih
    · simp only [List.map_cons, if_neg hb, mapLookup_cons]
      cases hb' : (p.1 == k') <;> simp [ih]

theorem mapLookup_append_single_ne {κ ν : Type} [BEq κ] [LawfulBEq κ]
    (m : List (κ × ν)) (k k' : κ) (v : ν) (h : k' ≠ k) :
    mapLookup (m ++ [(k, v)]) k' = mapLookup m k' := by
  induction m with
  | nil =>
    have hb : (k == k') = false := by simp; exact fun e => h e.symm
    simp [mapLookup_nil, List.nil_append, mapLookup_cons, hb]
  | cons p rest ih =>
    simp only [List.cons_append, mapLookup_cons, ih]

theorem mapLookup_append_single_self {κ ν : Type} [BEq κ] [LawfulBEq κ]
    (m : List (κ × ν)) (k : κ) (v : ν) (h : m.any (fun p => p.1 == k) = false) :
    mapLookup (m ++ [(k, v)]) k = some v := by
  induction m with
  | nil => simp [mapLookup_cons]
  | cons p rest ih =>
    simp only [List.any_cons, Bool.or_eq_false_iff] at h
    simp only [List.cons_append, mapLookup_cons, h.1]
    simp only [Bool.false_eq_true, if_false]
    exact ih h.2

theorem mapLookup_mapSet_self {κ ν : Type} [BEq κ] [LawfulBEq κ]
    (m : List (κ × ν)) (k : κ) (v : ν) : mapLookup (mapSet m k v) k = some v := by
  rw [mapSet]
  by_cases hany : m.any (fun p => p.1 == k) = true
  · rw [if_pos hany]
    exact mapLookup_mapReplace_self m k v hany
  · rw [if_neg hany]
    exact mapLookup_append_single_self m k v (bool_eq_false_of_ne_true hany)

theorem mapLookup_mapSet_ne {κ ν : Type} [BEq κ] [LawfulBEq κ]
    (m : List (κ × ν)) (k k' : κ) (v : ν) (h : k' ≠ k) :
    mapLookup (mapSet m k v) k' = mapLookup m k' := by
  rw [mapSet]
  by_cases hany : m.any (fun p => p.1 == k) = true
  · rw [if_pos hany]
    exact mapLookup_mapReplace_ne m k k' v h
  · rw [if_neg hany]
    exact mapLookup_append_single_ne m k k' v h

theorem keys_mapSet_of_mem {κ ν : Type} [BEq κ] [LawfulBEq κ]
    (m : List (κ × ν)) (k : κ) (v : ν) (h : m.any (fun p => p.1 == k) = true) :
    (mapSet m k v).map Prod.fst = m.map Prod.fst := by
  simp only [mapSet, if_pos h, List.map_map]
  apply List.map_congr_left
  intro p _
  by_cases hp : (p.1 == k) = true <;> simp [hp]

theorem mem_mapSet {κ ν : Type} [BEq κ] [LawfulBEq κ]
    {m : List (κ × ν)} {k : κ} {v : ν} {kv : κ × ν}
    (h : kv ∈ mapSet m k v) : kv ∈ m ∨ kv = (k, v) := by
  rw [mapSet] at h
  by_cases hany : m.any (fun p => p.1 == k) = true
  · rw [if_pos hany] at h
    rcases List.mem_map.mp h with ⟨p, hp, he⟩
    by_cases hb : (p.1 == k) = true
    · right
      have h1 : p.1 = k := by simpa using hb
      rw [if_pos hb] at he
      rw [← he, h1]
    · left
      rw [if_neg hb] at he
      rw [← he]
      exact hp
  · rw [if_neg hany] at h
    rcases List.mem_append.mp h with h1 | h2
    · exact Or.inl h1
    · exact Or.inr (by simpa using h2)

theorem mem_keys_mapSet_self {κ ν : Type} [BEq κ] [LawfulBEq κ]
    (m : List (κ × ν)) (k : κ) (v : ν) : k ∈ (mapSet m k v).map Prod.fst :=
  List.mem_map.mpr ⟨(k, v), mem_of_mapLookup_eq_some (mapLookup_mapSet_self m k v), rfl⟩

theorem mem_keys_mapSet_of_mem {κ ν : Type} [BEq κ] [LawfulBEq κ]
    (m : List (κ × ν)) (k k' : κ) (v : ν) (h : k' ∈ m.map Prod.fst) :
    k' ∈ (mapSet m k v).map Prod.fst := by
  by_cases hk : k' = k
  · rw [hk]; exact mem_keys_mapSet_self m k v
  · have he := mapLookup_mapSet_ne m k k' v hk
    have hne : mapLookup (mapSet m k v) k' ≠ none := by
      rw [he, Ne, mapLookup_eq_none_iff]
      simpa using h
    rcases Option.ne_none_iff_exists.mp hne with ⟨v', hv'⟩
    exact List.mem_map.mpr ⟨(k', v'), mem_of_mapLookup_eq_some hv'.symm, rfl⟩

/-! ### Lemmas: `url.Values` operations -/

theorem valuesGet_nil (k : String) : valuesGet [] k = [] := rfl

theorem valuesGet_cons (p : String × List String) (rest : FormValues) (k : String) :
    valuesGet (p :: rest) k = if p.1 == k then p.2 else valuesGet rest k := by
  cases hb : p.1 == k with
  | true => simp [valuesGet, List.find?_cons, hb]
  | false => simp [valuesGet, List.find?_cons, hb]

theorem valuesGet_eq_nil_of_any_false (f : FormValues) (k : String)
    (h : f.any (fun p => p.1 == k) = false) : valuesGet f k = [] := by
  induction f with
  | nil => rfl
  | cons p rest ih =>
    simp only [List.any_cons, Bool.or_eq_false_iff] at h
    rw [valuesGet_cons, h.1]
    simp only [Bool.false_eq_true, if_false]
    exact ih h.2

theorem valuesGet_mapReplaceSet_self (f : FormValues) (k v : String)
    (h : f.any (fun p => p.1 == k) = true) :
    valuesGet (f.map (fun p => if p.1 == k then (p.1, [v]) else p)) k = [v] := by
  induction f with
  | nil => simp at h
  | cons p rest ih =>
    simp only [List.any_cons, Bool.or_eq_true] at h
    cases hb : p.1 == k with
    | true =>
      have h1 : p.1 = k := by simpa using hb
      simp [valuesGet_cons, h1]
    | false =>
      simp only [List.map_cons, hb, Bool.false_eq_true, if_false, valuesGet_cons]
      rcases h with h | h
      · rw [hb] at h
        exact absurd h (by simp)
      · exact ih h

theorem valuesGet_mapReplaceAdd_self (f : FormValues) (k v : String)
    (h : f.any (fun p => p.1 == k) = true) :
    valuesGet (f.map (fun p => if p.1 == k then (p.1, p.2 ++ [v]) else p)) k
      = valuesGet f k ++ [v] := by
  induction f with
  | nil => simp at h
  | cons p rest ih =>
    simp only [List.any_cons, Bool.or_eq_true] at h
    cases hb : p.1 == k with
    | true =>
      have h1 : p.1 = k := by simpa using hb
      simp [valuesGet_cons, h1]
    | false =>
      simp only [List.map_cons, hb, Bool.false_eq_true, if_false, valuesGet_cons]
      rcases h with h | h
      · rw [hb] at h
        exact absurd h (by simp)
      · exact ih h

theorem valuesGet_mapReplaceGen_ne (f : FormValues) (k k' : String)
    (g : String × List String → List String) (h : k' ≠ k) :
    valuesGet (f.map (fun p => if p.1 == k then (p.1, g p) else p)) k' = valuesGet f k' := by
  induction f with
  | nil => rfl
  | cons p rest ih =>
    cases hb : p.1 == k with
    | true =>
      have h1 : p.1 = k := by simpa using hb
      have hb' : (p.1 == k') = false := by
        simp only [h1]
        simp
        exact fun e => h e.symm
      simp only [List.map_cons, hb, if_true, valuesGet_cons, hb', Bool.false_eq_true, if_false]
      exact ih
    | false =>
      simp only [List.map_cons, hb, Bool.false_eq_true, if_false, valuesGet_cons]
      cases hb' : p.1 == k' with
      | true => simp
      | false => simpa using ih

theorem valuesGet_append_single (f : FormValues) (k : String) (vs : List String)
    (h : f.any (fun p => p.1 == k) = false) :
    valuesGet (f ++ [(k, vs)]) k = vs := by
  induction f with
  | nil => simp [valuesGet_cons]
  | cons p rest ih =>
    simp only [List.any_cons, Bool.or_eq_false_iff] at h
    simp only [List.cons_append, valuesGet_cons, h.1, Bool.false_eq_true, if_false]
    exact ih h.2

theorem valuesGet_append_single_ne (f : FormValues) (k k' : String) (vs : List String)
    (h : k' ≠ k) : valuesGet (f ++ [(k, vs)]) k' = valuesGet f k' := by
  induction f with
  | nil =>
    have hb : (k == k') = false := by
      simp
      exact fun e => h e.symm
    simp [valuesGet_cons, hb]
  | cons p rest ih =>
    simp only [List.cons_append, valuesGet_cons, ih]

theorem valuesGet_set_self (f : FormValues) (k v : String) :
    valuesGet (valuesSet f k v) k = [v] := by
  rw [valuesSet]
  by_cases hany : f.any (fun p => p.1 == k) = true
  · rw [if_pos hany]
    exact valuesGet_mapReplaceSet_self f k v hany
  · rw [if_neg hany]
    exact valuesGet_append_single f k [v] (bool_eq_false_of_ne_true hany)

theorem valuesGet_set_ne (f : FormValues) (k k' v : String) (h : k' ≠ k) :
    valuesGet (valuesSet f k v) k' = valuesGet f k' := by
  rw [valuesSet]
  by_cases hany : f.any (fun p => p.1 == k) = true
  · rw [if_pos hany]
    exact valuesGet_mapReplaceGen_ne f k k' (fun _ => [v]) h
  · rw [if_neg hany]
    exact valuesGet_append_single_ne f k k' [v] h

theorem valuesGet_add_self (f : FormValues) (k v : String) :
    valuesGet (valuesAdd f k v) k = valuesGet f k ++ [v] := by
  rw [valuesAdd]
  by_cases hany : f.any (fun p => p.1 == k) = true
  · rw [if_pos hany]
    exact valuesGet_mapReplaceAdd_self f k v hany
  · rw [if_neg hany]
    rw [valuesGet_append_single f k [v] (bool_eq_false_of_ne_true hany)]
    rw [valuesGet_eq_nil_of_any_false f k (bool_eq_false_of_ne_true hany)]
    rfl

theorem valuesGet_add_ne (f : FormValues) (k k' v : String) (h : k' ≠ k) :
    valuesGet (valuesAdd f k v) k' = valuesGet f k' := by
  rw [valuesAdd]
  by_cases hany : f.any (fun p => p.1 == k) = true
  · rw [if_pos hany]
    exact valuesGet_mapReplaceGen_ne f k k' (fun p => p.2 ++ [v]) h
  · rw [if_neg hany]
    exact valuesGet_append_single_ne f k k' [v] h

theorem setList_nil (f : FormValues) : setList f [] = f := rfl

theorem setList_cons (f : FormValues) (p : String × String) (l : List (String × String)) :
    setList f (p :: l) = setList (valuesSet f p.1 p.2) l := rfl

theorem addList_nil (f : FormValues) (k : String) : addList f k [] = f := rfl

theorem addList_cons (f : FormValues) (k v : String) (vs : List String) :
    addList f k (v :: vs) = addList (valuesAdd f k v) k vs := rfl

theorem valuesGet_setList_not_mem (f : FormValues) (l : List (String × String)) (k : String)
    (h : ¬k ∈ l.map Prod.fst) : valuesGet (setList f l) k = valuesGet f k := by
  induction l generalizing f with
  | nil => rfl
  | cons p rest ih =>
    simp only [List.map_cons, List.mem_cons, not_or] at h
    rw [setList_cons, ih (valuesSet f p.1 p.2) h.2, valuesGet_set_ne f p.1 k p.2 h.1]

theorem valuesGet_setList_mem (f : FormValues) (l : List (String × String)) (k v : String)
    (hnd : (l.map Prod.fst).Nodup) (hm : (k, v) ∈ l) :
    valuesGet (setList f l) k = [v] := by
  induction l generalizing f with
  | nil => cases hm
  | cons p rest ih =>
    simp only [List.map_cons, List.nodup_cons] at hnd
    rw [setList_cons]
    rcases List.mem_cons.mp hm with h1 | h2
    · have hp : p = (k, v) := h1.symm
      subst hp
      rw [valuesGet_setList_not_mem _ _ _ hnd.1, valuesGet_set_self]
    · exact ih (valuesSet f p.1 p.2) hnd.2 h2

theorem valuesGet_addList_self (f : FormValues) (k : String) (vs : List String) :
    valuesGet (addList f k vs) k = valuesGet f k ++ vs := by
  induction vs generalizing f with
  | nil => simp [addList_nil]
  | cons v rest ih =>
    rw [addList_cons, ih (valuesAdd f k v), valuesGet_add_self]
    simp

theorem valuesGet_addList_ne (f : FormValues) (k k' : String) (vs : List String)
    (h : k' ≠ k) : valuesGet (addList f k vs) k' = valuesGet f k' := by
  induction vs generalizing f with
  | nil => rfl
  | cons v rest ih =>
    rw [addList_cons, ih (valuesAdd f k v), valuesGet_add_ne f k k' v h]

theorem hiddenFold_eq_setList (f : FormValues) (l : List (String × String)) :
    l.foldl (fun acc p => if p.1 == "h2hConfigChangesMade" then valuesSet acc p.1 "y"
                          else valuesSet acc p.1 p.2) f
      = setList f (l.map (fun p =>
          (p.1, if p.1 == "h2hConfigChangesMade" then "y" else p.2))) := by
  induction l generalizing f with
  | nil => rfl
  | cons p rest ih =>
    simp only [List.foldl_cons, List.map_cons, setList_cons]
    cases hb : p.1 == "h2hConfigChangesMade" with
    | true => simp only [hb, if_true]; exact ih _
    | false => simp only [hb, Bool.false_eq_true, if_false]; exact ih _

/-! ### The key space of BuildFormBody -/

theorem keys_transform (l : List (String × String)) (g : String × String → String) :
    (l.map (fun p => (p.1, g p))).map Prod.fst = l.map Prod.fst := by
  rw [List.map_map]
  exact List.map_congr_left (fun p _ => rfl)

theorem keys_prefixedPairs (l : List (String × String)) (pre : String) :
    (l.map (fun p => (pre ++ p.1, p.2))).map Prod.fst = l.map (fun p => pre ++ p.1) := by
  rw [List.map_map]
  exact List.map_congr_left (fun p _ => rfl)

/-- The wire keys of the team-name category. -/
def teamNameKeys (cfg : LeagueSetupFormConfig) : List String :=
  cfg.TeamNames.map (fun p => "teamName_" ++ p.1)

/-- The wire keys of the team-short-name category. -/
def teamShortNameKeys (cfg : LeagueSetupFormConfig) : List String :=
  cfg.TeamShortNames.map (fun p => "teamShortName_" ++ p.1)

/-- The wire keys of the division-name category. -/
def divisionNameKeys (cfg : LeagueSetupFormConfig) : List String :=
  cfg.DivisionNames.map (fun p => "divisionName_" ++ p.1)

/-- The key names of the hardcoded block of BuildFormBody. -/
def hardcodedKeyNames : List String :=
  ["tabId", "gotoNextPage", "divisionName", "inviteMessage",
   "calculatedHeadToHeadOpponentType", "playoffMatchupSetConfigId",
   "matchupScoringPeriodToEdit", "matchupsEditedManually"]

/-- All wire keys produced from the extracted categories. -/
def allFormKeys (cfg : LeagueSetupFormConfig) : List String :=
  cfg.HiddenFields.map Prod.fst ++ cfg.SelectFields.map Prod.fst ++
  cfg.CheckboxFields.map Prod.fst ++ teamNameKeys cfg ++ teamShortNameKeys cfg ++
  cfg.OwnerEmailFields.map Prod.fst ++ divisionNameKeys cfg

/-- Hygiene of a snapshot key space: the wire keys of the extracted categories
are pairwise distinct and avoid the serializer-owned key names. Every category
is a Go map, so each key list is duplicate-free in an assembled snapshot; the
cross-category and serializer-key separation is what keeps one category from
overwriting another in the single url.Values key space. -/
abbrev FormKeysOk (cfg : LeagueSetupFormConfig) : Prop :=
  (allFormKeys cfg ++ hardcodedKeyNames ++ ["~~divisions", "matchups"]).Nodup

theorem hardcodedFields_keys (period : Int) :
    (hardcodedFields period).map Prod.fst = hardcodedKeyNames := rfl

/-! ### Lookup characterization of BuildFormBody -/

theorem buildFormBody_lookup (setup : LeagueSetupMatchups) (period : Int)
    (h : FormKeysOk setup.FormConfig) :
    (∀ n v, (n, v) ∈ setup.FormConfig.HiddenFields → n ≠ "h2hConfigChangesMade" →
      valuesGet (BuildFormBody setup period) n = [v])
  ∧ (∀ v, ("h2hConfigChangesMade", v) ∈ setup.FormConfig.HiddenFields →
      valuesGet (BuildFormBody setup period) "h2hConfigChangesMade" = ["y"])
  ∧ (∀ n v, (n, v) ∈ setup.FormConfig.SelectFields →
      valuesGet (BuildFormBody setup period) n = [v])
  ∧ (∀ n v, (n, v) ∈ setup.FormConfig.CheckboxFields →
      valuesGet (BuildFormBody setup period) n = [v])
  ∧ (∀ t nm, (t, nm) ∈ setup.FormConfig.TeamNames →
      valuesGet (BuildFormBody setup period) ("teamName_" ++ t) = [nm])
  ∧ (∀ t nm, (t, nm) ∈ setup.FormConfig.TeamShortNames →
      valuesGet (BuildFormBody setup period) ("teamShortName_" ++ t) = [nm])
  ∧ (∀ n v, (n, v) ∈ setup.FormConfig.OwnerEmailFields →
      valuesGet (BuildFormBody setup period) n = [v])
  ∧ (∀ d nm, (d, nm) ∈ setup.FormConfig.DivisionNames →
      valuesGet (BuildFormBody setup period) ("divisionName_" ++ d) = [nm])
  ∧ valuesGet (BuildFormBody setup period) "~~divisions" = setup.FormConfig.Divisions := by
  have h0 : (setup.FormConfig.HiddenFields.map Prod.fst ++
      (setup.FormConfig.SelectFields.map Prod.fst ++
      (setup.FormConfig.CheckboxFields.map Prod.fst ++
      (teamNameKeys setup.FormConfig ++
      (teamShortNameKeys setup.FormConfig ++
      (setup.FormConfig.OwnerEmailFields.map Prod.fst ++
      (divisionNameKeys setup.FormConfig ++
      (hardcodedKeyNames ++ ["~~divisions", "matchups"])))))))).Nodup := by
    simpa [FormKeysOk, allFormKeys, List.append_assoc] using h
  have h1 := h0.of_append_right
  have h2 := h1.of_append_right
  have h3 := h2.of_append_right
  have h4 := h3.of_append_right
  have h5 := h4.of_append_right
  have h6 := h5.of_append_right
  have nd1 := h0.of_append_left
  have nd2 := h1.of_append_left
  have nd3 := h2.of_append_left
  have nd4 := h3.of_append_left
  have nd5 := h4.of_append_left
  have nd6 := h5.of_append_left
  have nd7 := h6.of_append_left
  have d1 := List.disjoint_of_nodup_append h0
  have d2 := List.disjoint_of_nodup_append h1
  have d3 := List.disjoint_of_nodup_append h2
  have d4 := List.disjoint_of_nodup_append h3
  have d5 := List.disjoint_of_nodup_append h4
  have d6 := List.disjoint_of_nodup_append h5
  have d7 := List.disjoint_of_nodup_append h6
  refine ⟨?_, ?_, ?_, ?_, ?_, ?_, ?_, ?_, ?_⟩
  · -- hidden fields other than the override key
    intro n v hm hne
    have hK1 : n ∈ setup.FormConfig.HiddenFields.map Prod.fst :=
      List.mem_map.mpr ⟨(n, v), hm, rfl⟩
    have hnot : ¬n ∈ (setup.FormConfig.SelectFields.map Prod.fst ++
        (setup.FormConfig.CheckboxFields.map Prod.fst ++
        (teamNameKeys setup.FormConfig ++
        (teamShortNameKeys setup.FormConfig ++
        (setup.FormConfig.OwnerEmailFields.map Prod.fst ++
        (divisionNameKeys setup.FormConfig ++
        (hardcodedKeyNames ++ ["~~divisions", "matchups"]))))))) :=
      fun hc => d1 hK1 hc
    simp only [List.mem_append, List.mem_cons, List.not_mem_nil, or_false, not_or] at hnot
    obtain ⟨a2, a3, a4, a5, a6, a7, aHK, aD, aM⟩ := hnot
    have hbeq : (n == "h2hConfigChangesMade") = false := by simpa using hne
    simp only [BuildFormBody]
    rw [valuesGet_addList_ne _ _ _ _ aM,
        valuesGet_setList_not_mem _ _ _ (by rw [hardcodedFields_keys]; exact aHK),
        valuesGet_addList_ne _ _ _ _ aD,
        valuesGet_setList_not_mem _ _ _ (by rw [keys_prefixedPairs]; exact a7),
        valuesGet_setList_not_mem _ _ _ a6,
        valuesGet_setList_not_mem _ _ _ (by rw [keys_prefixedPairs]; exact a5),
        valuesGet_setList_not_mem _ _ _ (by rw [keys_prefixedPairs]; exact a4),
        valuesGet_setList_not_mem _ _ _ a3,
        valuesGet_setList_not_mem _ _ _ a2,
        hiddenFold_eq_setList]
    exact valuesGet_setList_mem _ _ n v (by rw [keys_transform]; exact nd1)
      (List.mem_map.mpr ⟨(n, v), hm, by simp [hbeq]⟩)
  · -- the override key
    intro v hm
    have hK1 : "h2hConfigChangesMade" ∈ setup.FormConfig.HiddenFields.map Prod.fst :=
      List.mem_map.mpr ⟨("h2hConfigChangesMade", v), hm, rfl⟩
    have hnot : ¬"h2hConfigChangesMade" ∈ (setup.FormConfig.SelectFields.map Prod.fst ++
        (setup.FormConfig.CheckboxFields.map Prod.fst ++
        (teamNameKeys setup.FormConfig ++
        (teamShortNameKeys setup.FormConfig ++
        (setup.FormConfig.OwnerEmailFields.map Prod.fst ++
        (divisionNameKeys setup.FormConfig ++
        (hardcodedKeyNames ++ ["~~divisions", "matchups"]))))))) :=
      fun hc => d1 hK1 hc
    simp only [List.mem_append, List.mem_cons, List.not_mem_nil, or_false, not_or] at hnot
    obtain ⟨a2, a3, a4, a5, a6, a7, aHK, aD, aM⟩ := hnot
    simp only [BuildFormBody]
    rw [valuesGet_addList_ne _ _ _ _ aM,
        valuesGet_setList_not_mem _ _ _ (by rw [hardcodedFields_keys]; exact aHK),
        valuesGet_addList_ne _ _ _ _ aD,
        valuesGet_setList_not_mem _ _ _ (by rw [keys_prefixedPairs]; exact a7),
        valuesGet_setList_not_mem _ _ _ a6,
        valuesGet_setList_not_mem _ _ _ (by rw [keys_prefixedPairs]; exact a5),
        valuesGet_setList_not_mem _ _ _ (by rw [keys_prefixedPairs]; exact a4),
        valuesGet_setList_not_mem _ _ _ a3,
        valuesGet_setList_not_mem _ _ _ a2,
        hiddenFold_eq_setList]
    exact valuesGet_setList_mem _ _ _ "y" (by rw [keys_transform]; exact nd1)
      (List.mem_map.mpr ⟨("h2hConfigChangesMade", v), hm, by simp⟩)
  · -- select fields
    intro n v hm
    have hK : n ∈ setup.FormConfig.SelectFields.map Prod.fst :=
      List.mem_map.mpr ⟨(n, v), hm, rfl⟩
    have hnot : ¬n ∈ (setup.FormConfig.CheckboxFields.map Prod.fst ++
        (teamNameKeys setup.FormConfig ++
        (teamShortNameKeys setup.FormConfig ++
        (setup.FormConfig.OwnerEmailFields.map Prod.fst ++
        (divisionNameKeys setup.FormConfig ++
        (hardcodedKeyNames ++ ["~~divisions", "matchups"])))))) :=
      fun hc => d2 hK hc
    simp only [List.mem_append, List.mem_cons, List.not_mem_nil, or_false, not_or] at hnot
    obtain ⟨a3, a4, a5, a6, a7, aHK, aD, aM⟩ := hnot
    simp only [BuildFormBody]
    rw [valuesGet_addList_ne _ _ _ _ aM,
        valuesGet_setList_not_mem _ _ _ (by rw [hardcodedFields_keys]; exact aHK),
        valuesGet_addList_ne _ _ _ _ aD,
        valuesGet_setList_not_mem _ _ _ (by rw [keys_prefixedPairs]; exact a7),
        valuesGet_setList_not_mem _ _ _ a6,
        valuesGet_setList_not_mem _ _ _ (by rw [keys_prefixedPairs]; exact a5),
        valuesGet_setList_not_mem _ _ _ (by rw [keys_prefixedPairs]; exact a4),
        valuesGet_setList_not_mem _ _ _ a3]
    exact valuesGet_setList_mem _ _ n v nd2 hm
  · -- checkbox shadow fields
    intro n v hm
    have hK : n ∈ setup.FormConfig.CheckboxFields.map Prod.fst :=
      List.mem_map.mpr ⟨(n, v), hm, rfl⟩
    have hnot : ¬n ∈ (teamNameKeys setup.FormConfig ++
        (teamShortNameKeys setup.FormConfig ++
        (setup.FormConfig.OwnerEmailFields.map Prod.fst ++
        (divisionNameKeys setup.FormConfig ++
        (hardcodedKeyNames ++ ["~~divisions", "matchups"]))))) :=
      fun hc => d3 hK hc
    simp only [List.mem_append, List.mem_cons, List.not_mem_nil, or_false, not_or] at hnot
    obtain ⟨a4, a5, a6, a7, aHK, aD, aM⟩ := hnot
    simp only [BuildFormBody]
    rw [valuesGet_addList_ne _ _ _ _ aM,
        valuesGet_setList_not_mem _ _ _ (by rw [hardcodedFields_keys]; exact aHK),
        valuesGet_addList_ne _ _ _ _ aD,
        valuesGet_setList_not_mem _ _ _ (by rw [keys_prefixedPairs]; exact a7),
        valuesGet_setList_not_mem _ _ _ a6,
        valuesGet_setList_not_mem _ _ _ (by rw [keys_prefixedPairs]; exact a5),
        valuesGet_setList_not_mem _ _ _ (by rw [keys_prefixedPairs]; exact a4)]
    exact valuesGet_setList_mem _ _ n v nd3 hm
  · -- team names
    intro t nm hm
    have hK : ("teamName_" ++ t) ∈ teamNameKeys setup.FormConfig :=
      List.mem_map.mpr ⟨(t, nm), hm, rfl⟩
    have hnot : ¬("teamName_" ++ t) ∈ (teamShortNameKeys setup.FormConfig ++
        (setup.FormConfig.OwnerEmailFields.map Prod.fst ++
        (divisionNameKeys setup.FormConfig ++
        (hardcodedKeyNames ++ ["~~divisions", "matchups"])))) :=
      fun hc => d4 hK hc
    simp only [List.mem_append, List.mem_cons, List.not_mem_nil, or_false, not_or] at hnot
    obtain ⟨a5, a6, a7, aHK, aD, aM⟩ := hnot
    simp only [BuildFormBody]
    rw [valuesGet_addList_ne _ _ _ _ aM,
        valuesGet_setList_not_mem _ _ _ (by rw [hardcodedFields_keys]; exact aHK),
        valuesGet_addList_ne _ _ _ _ aD,
        valuesGet_setList_not_mem _ _ _ (by rw [keys_prefixedPairs]; exact a7),
        valuesGet_setList_not_mem _ _ _ a6,
        valuesGet_setList_not_mem _ _ _ (by rw [keys_prefixedPairs]; exact a5)]
    exact valuesGet_setList_mem _ _ _ nm (by rw [keys_prefixedPairs]; exact nd4)
      (List.mem_map.mpr ⟨(t, nm), hm, rfl⟩)
  · -- team short names
    intro t nm hm
    have hK : ("teamShortName_" ++ t) ∈ teamShortNameKeys setup.FormConfig :=
      List.mem_map.mpr ⟨(t, nm), hm, rfl⟩
    have hnot : ¬("teamShortName_" ++ t) ∈ (setup.FormConfig.OwnerEmailFields.map Prod.fst ++
        (divisionNameKeys setup.FormConfig ++
        (hardcodedKeyNames ++ ["~~divisions", "matchups"]))) :=
      fun hc => d5 hK hc
    simp only [List.mem_append, List.mem_cons, List.not_mem_nil, or_false, not_or] at hnot
    obtain ⟨a6, a7, aHK, aD, aM⟩ := hnot
    simp only [BuildFormBody]
    rw [valuesGet_addList_ne _ _ _ _ aM,
        valuesGet_setList_not_mem _ _ _ (by rw [hardcodedFields_keys]; exact aHK),
        valuesGet_addList_ne _ _ _ _ aD,
        valuesGet_setList_not_mem _ _ _ (by rw [keys_prefixedPairs]; exact a7),
        valuesGet_setList_not_mem _ _ _ a6]
    exact valuesGet_setList_mem _ _ _ nm (by rw [keys_prefixedPairs]; exact nd5)
      (List.mem_map.mpr ⟨(t, nm), hm, rfl⟩)
  · -- owner email fields
    intro n v hm
    have hK : n ∈ setup.FormConfig.OwnerEmailFields.map Prod.fst :=
      List.mem_map.mpr ⟨(n, v), hm, rfl⟩
    have hnot : ¬n ∈ (divisionNameKeys setup.FormConfig ++
        (hardcodedKeyNames ++ ["~~divisions", "matchups"])) :=
      fun hc => d6 hK hc
    simp only [List.mem_append, List.mem_cons, List.not_mem_nil, or_false, not_or] at hnot
    obtain ⟨a7, aHK, aD, aM⟩ := hnot
    simp only [BuildFormBody]
    rw [valuesGet_addList_ne _ _ _ _ aM,
        valuesGet_setList_not_mem _ _ _ (by rw [hardcodedFields_keys]; exact aHK),
        valuesGet_addList_ne _ _ _ _ aD,
        valuesGet_setList_not_mem _ _ _ (by rw [keys_prefixedPairs]; exact a7)]
    exact valuesGet_setList_mem _ _ n v nd6 hm
  · -- division names
    intro d nm hm
    have hK : ("divisionName_" ++ d) ∈ divisionNameKeys setup.FormConfig :=
      List.mem_map.mpr ⟨(d, nm), hm, rfl⟩
    have hnot : ¬("divisionName_" ++ d) ∈ (hardcodedKeyNames ++ ["~~divisions", "matchups"]) :=
      fun hc => d7 hK hc
    simp only [List.mem_append, List.mem_cons, List.not_mem_nil, or_false, not_or] at hnot
    obtain ⟨aHK, aD, aM⟩ := hnot
    simp only [BuildFormBody]
    rw [valuesGet_addList_ne _ _ _ _ aM,
        valuesGet_setList_not_mem _ _ _ (by rw [hardcodedFields_keys]; exact aHK),
        valuesGet_addList_ne _ _ _ _ aD]
    exact valuesGet_setList_mem _ _ _ nm (by rw [keys_prefixedPairs]; exact nd7)
      (List.mem_map.mpr ⟨(d, nm), hm, rfl⟩)
  · -- the division membership block
    have hdm : ("~~divisions" : String) ∈ (hardcodedKeyNames ++ ["~~divisions", "matchups"]) := by
      simp [hardcodedKeyNames]
    have b1 : ¬"~~divisions" ∈ setup.FormConfig.HiddenFields.map Prod.fst :=
      fun hc => d1 hc (by simp [hdm])
    have b2 : ¬"~~divisions" ∈ setup.FormConfig.SelectFields.map Prod.fst :=
      fun hc => d2 hc (by simp [hdm])
    have b3 : ¬"~~divisions" ∈ setup.FormConfig.CheckboxFields.map Prod.fst :=
      fun hc => d3 hc (by simp [hdm])
    have b4 : ¬"~~divisions" ∈ teamNameKeys setup.FormConfig :=
      fun hc => d4 hc (by simp [hdm])
    have b5 : ¬"~~divisions" ∈ teamShortNameKeys setup.FormConfig :=
      fun hc => d5 hc (by simp [hdm])
    have b6 : ¬"~~divisions" ∈ setup.FormConfig.OwnerEmailFields.map Prod.fst :=
      fun hc => d6 hc (by simp [hdm])
    have b7 : ¬"~~divisions" ∈ divisionNameKeys setup.FormConfig :=
      fun hc => d7 hc hdm
    simp only [BuildFormBody]
    rw [valuesGet_addList_ne _ _ _ _ (by decide : ("~~divisions" : String) ≠ "matchups"),
        valuesGet_setList_not_mem _ _ _
          (by rw [hardcodedFields_keys]; decide),
        valuesGet_addList_self,
        valuesGet_setList_not_mem _ _ _ (by rw [keys_prefixedPairs]; exact b7),
        valuesGet_setList_not_mem _ _ _ b6,
        valuesGet_setList_not_mem _ _ _ (by rw [keys_prefixedPairs]; exact b5),
        valuesGet_setList_not_mem _ _ _ (by rw [keys_prefixedPairs]; exact b4),
        valuesGet_setList_not_mem _ _ _ b3,
        valuesGet_setList_not_mem _ _ _ b2,
        hiddenFold_eq_setList,
        valuesGet_setList_not_mem _ _ _ (by rw [keys_transform]; exact b1)]
    simp [valuesGet_nil]

/-! ### Claim C1: round trip of the assembled snapshot -/

/-- C1 (amended): for every snapshot with a hygienic key space, looking the
wire keys up in the serialized form reproduces every extracted name/value of
every category verbatim and keeps the order of the division-membership values,
with the single exception that the h2hConfigChangesMade hidden field is
reproduced as "y" instead of its extracted value. -/
theorem buildFormBody_roundTrip_amended (setup : LeagueSetupMatchups) (period : Int)
    (h : FormKeysOk setup.FormConfig) :
    (∀ n v, (n, v) ∈ setup.FormConfig.HiddenFields → n ≠ "h2hConfigChangesMade" →
      valuesGet (BuildFormBody setup period) n = [v])
  ∧ (∀ v, ("h2hConfigChangesMade", v) ∈ setup.FormConfig.HiddenFields →
      valuesGet (BuildFormBody setup period) "h2hConfigChangesMade" = ["y"])
  ∧ (∀ n v, (n, v) ∈ setup.FormConfig.SelectFields →
      valuesGet (BuildFormBody setup period) n = [v])
  ∧ (∀ n v, (n, v) ∈ setup.FormConfig.CheckboxFields →
      valuesGet (BuildFormBody setup period) n = [v])
  ∧ (∀ t nm, (t, nm) ∈ setup.FormConfig.TeamNames →
      valuesGet (BuildFormBody setup period) ("teamName_" ++ t) = [nm])
  ∧ (∀ t nm, (t, nm) ∈ setup.FormConfig.TeamShortNames →
      valuesGet (BuildFormBody setup period) ("teamShortName_" ++ t) = [nm])
  ∧ (∀ n v, (n, v) ∈ setup.FormConfig.OwnerEmailFields →
      valuesGet (BuildFormBody setup period) n = [v])
  ∧ (∀ d nm, (d, nm) ∈ setup.FormConfig.DivisionNames →
      valuesGet (BuildFormBody setup period) ("divisionName_" ++ d) = [nm])
  ∧ valuesGet (BuildFormBody setup period) "~~divisions" = setup.FormConfig.Divisions :=
  buildFormBody_lookup setup period h

/-- A page with every parse stage present whose h2hConfigChangesMade hidden
field carries "n". -/
def exRoundTripHtml : String :=
  "var matchupMap = \x7b\x271\x27:[\x27a1_b1\x27]\x7d;" ++
  "addTeam(\x27Alpha\x27, \x27ALP\x27, \x27a@x.com\x27, \x27t1\x27, \x27u1\x27, true, true, false);" ++
  "<input type=\"text\" name=\"divisionName_d1\" value=\"East\">" ++
  "__removeTeamFromDivision(\x27tbl_d1\x27, \x27t1\x27, false);" ++
  "<input type=\"hidden\" name=\"h2hConfigChangesMade\" value=\"n\">"

/-- The snapshot assembled from that page. -/
def exRoundTripSetup : LeagueSetupMatchups :=
  ((assembleFromHTML exRoundTripHtml).toOption).getD ⟨[], [], [], emptyFormConfig⟩

/-- C1 counterexample: an assembled, unmutated snapshot whose extracted
h2hConfigChangesMade value "n" is not reproduced by the serializer, which
emits "y" for that key; so the round trip does not reproduce every extracted
name/value. -/
theorem buildFormBody_roundTrip_counterexample :
    assembleFromHTML exRoundTripHtml = Except.ok exRoundTripSetup
  ∧ ("h2hConfigChangesMade", "n") ∈ exRoundTripSetup.FormConfig.HiddenFields
  ∧ valuesGet (BuildFormBody exRoundTripSetup 1) "h2hConfigChangesMade" = ["y"]
  ∧ ["y"] ≠ ["n"] := by
  set_option maxRecDepth 40000 in
  exact ⟨rfl, by decide, by decide, by decide⟩

/-- A small snapshot with every category populated and a hygienic key space. -/
def exWitnessSetup : LeagueSetupMatchups :=
  ⟨[], [],
   [(1, [⟨"a1", "b1"⟩])],
   ⟨[("h2hConfigChangesMade", "n"), ("hidA", "1")], [("selA", "2")], [("_boxA", "on")],
    [("t1", "Alpha")], [("t1", "ALP")], [("teamOwnerEmail,a@x.com,t1,u1", "a@x.com")],
    [("d1", "East")], ["d1=t1|t2"]⟩⟩

/-- C1 witness: the amended round trip instantiated on a concrete snapshot. -/
theorem buildFormBody_roundTrip_amended_witness :
    FormKeysOk exWitnessSetup.FormConfig
  ∧ valuesGet (BuildFormBody exWitnessSetup 1) "hidA" = ["1"]
  ∧ valuesGet (BuildFormBody exWitnessSetup 1) "~~divisions" = ["d1=t1|t2"] :=
  ⟨by decide,
   (buildFormBody_roundTrip_amended exWitnessSetup 1 (by decide)).1 "hidA" "1"
     (by decide) (by decide),
   (buildFormBody_roundTrip_amended exWitnessSetup 1 (by decide)).2.2.2.2.2.2.2.2⟩

/-! ### Claim C6: the h2hConfigChangesMade override -/

/-- C6: in the serialized form of a snapshot with a hygienic key space, the
h2hConfigChangesMade hidden field always carries "y" regardless of the value
extracted from the page, and every other extracted hidden field is emitted
with its extracted value verbatim. -/
theorem h2hOverride_spec (setup : LeagueSetupMatchups) (period : Int)
    (h : FormKeysOk setup.FormConfig) :
    (∀ v, ("h2hConfigChangesMade", v) ∈ setup.FormConfig.HiddenFields →
      valuesGet (BuildFormBody setup period) "h2hConfigChangesMade" = ["y"])
  ∧ (∀ n v, (n, v) ∈ setup.FormConfig.HiddenFields → n ≠ "h2hConfigChangesMade" →
      valuesGet (BuildFormBody setup period) n = [v]) :=
  ⟨(buildFormBody_lookup setup period h).2.1, (buildFormBody_lookup setup period h).1⟩

/-- C6 witness: the override on a concrete snapshot whose extracted value is
"n". -/
theorem h2hOverride_spec_witness :
    FormKeysOk exWitnessSetup.FormConfig
  ∧ valuesGet (BuildFormBody exWitnessSetup 1) "h2hConfigChangesMade" = ["y"] :=
  ⟨by decide, (h2hOverride_spec exWitnessSetup 1 (by decide)).1 "n" (by decide)⟩

/-! ### Claim C2: SetPeriodMatchups validation and mutation -/

/-- C2: with a target period not present in the snapshot matchup map, or with
an empty replacement list, the call returns an error and hands back the
snapshot unchanged; on passing validation it replaces the target period entire
pair list with the given list, never merging, leaves every other period
untouched, and serializes the mutated snapshot. -/
theorem setPeriodMatchups_validation (setup : LeagueSetupMatchups) (period : Int)
    (matchups : List MatchupPair) :
    ((mapLookup setup.Matchups period = none ∨ matchups = []) →
      ∃ e, SetPeriodMatchupsCore setup period matchups = (setup, Except.error e))
  ∧ (mapLookup setup.Matchups period ≠ none → matchups ≠ [] →
      (SetPeriodMatchupsCore setup period matchups).1.Matchups
          = mapSet setup.Matchups period matchups
      ∧ mapLookup (SetPeriodMatchupsCore setup period matchups).1.Matchups period
          = some matchups
      ∧ (∀ q, q ≠ period →
          mapLookup (SetPeriodMatchupsCore setup period matchups).1.Matchups q
            = mapLookup setup.Matchups q)
      ∧ (SetPeriodMatchupsCore setup period matchups).2
          = Except.ok (BuildFormBody (SetPeriodMatchupsCore setup period matchups).1 period)) := by
  constructor
  · intro hor
    by_cases hl : (mapLookup setup.Matchups period).isNone
    · exact ⟨"period " ++ intDecString period ++ " not found in setup matchups",
        by simp [SetPeriodMatchupsCore, hl]⟩
    · have hm : matchups = [] := by
        rcases hor with h | h
        · exact absurd (by simp [h]) hl
        · exact h
      exact ⟨"matchups must not be empty", by simp [SetPeriodMatchupsCore, hl, hm]⟩
  · intro h1 h2
    have hl : (mapLookup setup.Matchups period).isNone = false := by
      cases hE : mapLookup setup.Matchups period with
      | none => exact absurd hE h1
      | some v => rfl
    have he : matchups.isEmpty = false := by
      cases matchups with
      | nil => exact absurd rfl h2
      | cons a l => rfl
    have hcore : SetPeriodMatchupsCore setup period matchups
        = ({ setup with Matchups := mapSet setup.Matchups period matchups },
           Except.ok (BuildFormBody
             { setup with Matchups := mapSet setup.Matchups period matchups } period)) := by
      simp [SetPeriodMatchupsCore, hl, he]
    rw [hcore]
    exact ⟨rfl, mapLookup_mapSet_self _ _ _,
      fun q hq => mapLookup_mapSet_ne _ _ _ _ hq, rfl⟩

/-- A snapshot with two known periods. -/
def exValidationSetup : LeagueSetupMatchups :=
  ⟨[], [], [(1, [⟨"a1", "b1"⟩]), (2, [⟨"a1", "-1"⟩])], emptyFormConfig⟩

/-- C2 witness: an unknown-period call errors with the snapshot unchanged, and
a valid call replaces period 1 entirely. -/
theorem setPeriodMatchups_validation_witness :
    mapLookup exValidationSetup.Matchups 999 = none
  ∧ (∃ e, SetPeriodMatchupsCore exValidationSetup 999 [⟨"a1", "b1"⟩]
      = (exValidationSetup, Except.error e))
  ∧ mapLookup exValidationSetup.Matchups 1 ≠ none
  ∧ mapLookup (SetPeriodMatchupsCore exValidationSetup 1 [⟨"c1", "b1"⟩]).1.Matchups 1
      = some [⟨"c1", "b1"⟩] :=
  ⟨by decide,
   (setPeriodMatchups_validation exValidationSetup 999 [⟨"a1", "b1"⟩]).1 (Or.inl (by decide)),
   by decide,
   ((setPeriodMatchups_validation exValidationSetup 1 [⟨"c1", "b1"⟩]).2
     (by decide) (by decide)).2.1⟩

/-! ### Claim C3: the serialized schedule block -/

/-- Lookup along a permutation of a duplicate-free association list. -/
theorem mapLookup_perm {κ ν : Type} [BEq κ] [LawfulBEq κ] {m1 m2 : List (κ × ν)}
    (hp : m1.Perm m2) (hnd : (m2.map Prod.fst).Nodup) (k : κ) :
    mapLookup m1 k = mapLookup m2 k := by
  cases hE : mapLookup m1 k with
  | none =>
    rw [mapLookup_eq_none_iff] at hE
    symm
    rw [mapLookup_eq_none_iff]
    intro hc
    exact hE (((hp.map Prod.fst).mem_iff).mpr hc)
  | some v =>
    have hm := mem_of_mapLookup_eq_some hE
    exact (mapLookup_eq_some_of_mem hnd (hp.mem_iff.mp hm)).symm

/-- C3: with duplicate-free period keys, the serialized schedule block has
exactly one entry per period of the matchup map, each formatted from the
period and its stored pairs in order, the entries follow the ascending order
of the period numbers, and the block does not depend on the storage order of
the map entries. -/
theorem serializeMatchups_spec (setup : LeagueSetupMatchups)
    (h : (setup.Matchups.map Prod.fst).Nodup) :
    (∃ ps : List Int, ps.Perm (setup.Matchups.map Prod.fst)
      ∧ List.Sorted (fun a b => a ≤ b) ps
      ∧ serializeMatchups setup
          = ps.map (fun p => formatMatchupEntry p ((mapLookup setup.Matchups p).getD [])))
  ∧ (serializeMatchups setup).length = setup.Matchups.length
  ∧ (∀ p pairs, (p, pairs) ∈ setup.Matchups →
      formatMatchupEntry p pairs ∈ serializeMatchups setup)
  ∧ (∀ m2 : List (Int × List MatchupPair), m2.Perm setup.Matchups →
      serializeMatchups ⟨setup.Teams, setup.Divisions, m2, setup.FormConfig⟩
        = serializeMatchups setup) := by
  refine ⟨⟨List.insertionSort (fun a b => a ≤ b) (setup.Matchups.map Prod.fst),
      List.perm_insertionSort _ _, List.sorted_insertionSort _ _, rfl⟩, ?_, ?_, ?_⟩
  · simp only [serializeMatchups, List.length_map]
    rw [(List.perm_insertionSort (fun a b => a ≤ b) (setup.Matchups.map Prod.fst)).length_eq]
    exact List.length_map _ _
  · intro p pairs hm
    have hp : p ∈ List.insertionSort (fun a b => a ≤ b) (setup.Matchups.map Prod.fst) :=
      (List.perm_insertionSort _ _).mem_iff.mpr (List.mem_map.mpr ⟨(p, pairs), hm, rfl⟩)
    have hl : mapLookup setup.Matchups p = some pairs := mapLookup_eq_some_of_mem h hm
    simp only [serializeMatchups]
    exact List.mem_map.mpr ⟨p, hp, by rw [hl]; rfl⟩
  · intro m2 hperm
    simp only [serializeMatchups]
    have hkeys : List.insertionSort (fun a b => a ≤ b) (m2.map Prod.fst)
        = List.insertionSort (fun a b => a ≤ b) (setup.Matchups.map Prod.fst) := by
      refine List.eq_of_perm_of_sorted ?_ (List.sorted_insertionSort _ _)
        (List.sorted_insertionSort _ _)
      exact ((List.perm_insertionSort _ _).trans (hperm.map Prod.fst)).trans
        (List.perm_insertionSort _ _).symm
    rw [hkeys]
    exact List.map_congr_left (fun p _ => by rw [mapLookup_perm hperm h p])

/-- A snapshot whose matchup entries are stored out of period order. -/
def exSerializeSetup : LeagueSetupMatchups :=
  ⟨[], [], [(3, [⟨"c1", "b1"⟩, ⟨"a1", "-1"⟩]), (1, [⟨"a1", "b1"⟩])], emptyFormConfig⟩

/-- C3 witness: the mutated period 3 serializes to the documented entry and
the block comes out in ascending period order. -/
theorem serializeMatchups_spec_witness :
    (exSerializeSetup.Matchups.map Prod.fst).Nodup
  ∧ formatMatchupEntry 3 [⟨"c1", "b1"⟩, ⟨"a1", "-1"⟩] ∈ serializeMatchups exSerializeSetup
  ∧ serializeMatchups exSerializeSetup = ["1|a1_b1", "3|c1_b1|a1_-1"] :=
  ⟨by decide,
   (serializeMatchups_spec exSerializeSetup (by decide)).2.2.1 3 [⟨"c1", "b1"⟩, ⟨"a1", "-1"⟩]
     (by decide),
   by decide⟩

/-! ### Claim C5: classification of the POST response -/

/-- C5 (amended): the submission is reported a success exactly when the
response status is 302, the one status the code accepts; every other status,
including 200 and the other redirect statuses, is reported as a failure whose
message carries at most the first 500 characters of the response body. -/
theorem submitClassification_amended (statusCode : Nat) (body : String) :
    (classifySubmitResponse statusCode body = none ↔ statusCode = 302)
  ∧ (statusCode ≠ 302 →
      classifySubmitResponse statusCode body
        = some ("expected 302 redirect on success, got status " ++ natDecString statusCode
            ++ "; body: " ++ responseSnippet body))
  ∧ (body.length ≤ 500 → responseSnippet body = body)
  ∧ (body.length > 500 → responseSnippet body = body.take 500 ++ "...") := by
  refine ⟨?_, ?_, ?_, ?_⟩
  · constructor
    · intro hc
      by_contra hne
      simp [classifySubmitResponse, hne] at hc
    · intro he
      simp [classifySubmitResponse, he]
  · intro hne
    simp [classifySubmitResponse, hne]
  · intro hle
    simp [responseSnippet, Nat.not_lt.mpr hle]
  · intro hgt
    simp [responseSnippet, hgt]

/-- C5 witness: a 200 response is a failure carrying the body snippet. -/
theorem submitClassification_amended_witness :
    (200 : Nat) ≠ 302
  ∧ classifySubmitResponse 200 "err page"
      = some "expected 302 redirect on success, got status 200; body: err page" := by
  refine ⟨by decide, ?_⟩
  rw [(submitClassification_amended 200 "err page").2.1 (by decide)]
  rfl

/-- C5 counterexample: 301 is a redirect status, yet the code classifies it as
a failure; only 302 is accepted. -/
theorem submitClassification_counterexample :
    isRedirectStatus 301 = true ∧ (classifySubmitResponse 301 "").isSome = true := by
  exact ⟨by decide, by decide⟩

/-! ### Claim C8: owner-email field generation -/

theorem mem_ownersFold (tid : String) (owners : List TeamOwner) :
    ∀ (acc : List (String × String)) (kv : String × String),
      kv ∈ owners.foldl
        (fun acc2 o =>
          match ownerEmailEntry tid o with
          | some kv2 => mapSet acc2 kv2.1 kv2.2
          | none => acc2) acc →
      kv ∈ acc ∨ ∃ o, o ∈ owners ∧ ownerEmailEntry tid o = some kv := by
  induction owners with
  | nil => intro acc kv h; exact Or.inl h
  | cons o rest ih =>
    intro acc kv h
    simp only [List.foldl_cons] at h
    rcases ih _ kv h with h1 | ⟨o2, ho2, he2⟩
    · cases hE : ownerEmailEntry tid o with
      | some kv2 =>
        rw [hE] at h1
        rcases mem_mapSet h1 with h2 | h2
        · exact Or.inl h2
        · exact Or.inr ⟨o, List.mem_cons_self o rest, by rw [hE, h2]⟩
      | none =>
        rw [hE] at h1
        exact Or.inl h1
    · exact Or.inr ⟨o2, List.mem_cons.mpr (Or.inr ho2), he2⟩

theorem keys_ownersFold_mono (tid : String) (owners : List TeamOwner) :
    ∀ (acc : List (String × String)) (k : String), k ∈ acc.map Prod.fst →
      k ∈ (owners.foldl
        (fun acc2 o =>
          match ownerEmailEntry tid o with
          | some kv2 => mapSet acc2 kv2.1 kv2.2
          | none => acc2) acc).map Prod.fst := by
  induction owners with
  | nil => intro acc k h; exact h
  | cons o rest ih =>
    intro acc k h
    simp only [List.foldl_cons]
    apply ih
    cases hE : ownerEmailEntry tid o with
    | some kv2 => exact mem_keys_mapSet_of_mem acc kv2.1 k kv2.2 h
    | none => exact h

theorem key_mem_ownersFold (tid : String) (owners : List TeamOwner) (o : TeamOwner)
    (kv : String × String) (ho : o ∈ owners) (hE : ownerEmailEntry tid o = some kv) :
    ∀ acc : List (String × String),
      kv.1 ∈ (owners.foldl
        (fun acc2 o =>
          match ownerEmailEntry tid o with
          | some kv2 => mapSet acc2 kv2.1 kv2.2
          | none => acc2) acc).map Prod.fst := by
  induction owners with
  | nil => cases ho
  | cons o2 rest ih =>
    intro acc
    simp only [List.foldl_cons]
    rcases List.mem_cons.mp ho with h1 | h2
    · subst h1
      rw [hE]
      exact keys_ownersFold_mono tid rest _ kv.1 (mem_keys_mapSet_self acc kv.1 kv.2)
    · exact ih h2 _

theorem mem_teamsFold (teams : List LeagueSetupTeam) :
    ∀ (acc : List (String × String)) (kv : String × String),
      kv ∈ teams.foldl
        (fun acc t => t.Owners.foldl
          (fun acc2 o =>
            match ownerEmailEntry t.TeamID o with
            | some kv2 => mapSet acc2 kv2.1 kv2.2
            | none => acc2) acc) acc →
      kv ∈ acc ∨ ∃ t o, t ∈ teams ∧ o ∈ t.Owners ∧ ownerEmailEntry t.TeamID o = some kv := by
  induction teams with
  | nil => intro acc kv h; exact Or.inl h
  | cons t rest ih =>
    intro acc kv h
    simp only [List.foldl_cons] at h
    rcases ih _ kv h with h1 | ⟨t2, o2, ht2, ho2, he2⟩
    · rcases mem_ownersFold t.TeamID t.Owners acc kv h1 with h2 | ⟨o, ho, he⟩
      · exact Or.inl h2
      · exact Or.inr ⟨t, o, List.mem_cons_self t rest, ho, he⟩
    · exact Or.inr ⟨t2, o2, List.mem_cons.mpr (Or.inr ht2), ho2, he2⟩

theorem keys_teamsFold_mono (teams : List LeagueSetupTeam) :
    ∀ (acc : List (String × String)) (k : String), k ∈ acc.map Prod.fst →
      k ∈ (teams.foldl
        (fun acc t => t.Owners.foldl
          (fun acc2 o =>
            match ownerEmailEntry t.TeamID o with
            | some kv2 => mapSet acc2 kv2.1 kv2.2
            | none => acc2) acc) acc).map Prod.fst := by
  induction teams with
  | nil => intro acc k h; exact h
  | cons t rest ih =>
    intro acc k h
    simp only [List.foldl_cons]
    exact ih _ k (keys_ownersFold_mono t.TeamID t.Owners acc k h)

theorem key_mem_teamsFold (teams : List LeagueSetupTeam) (t : LeagueSetupTeam)
    (o : TeamOwner) (kv : String × String) (ht : t ∈ teams) (ho : o ∈ t.Owners)
    (hE : ownerEmailEntry t.TeamID o = some kv) :
    ∀ acc : List (String × String),
      kv.1 ∈ (teams.foldl
        (fun acc t => t.Owners.foldl
          (fun acc2 o =>
            match ownerEmailEntry t.TeamID o with
            | some kv2 => mapSet acc2 kv2.1 kv2.2
            | none => acc2) acc) acc).map Prod.fst := by
  induction teams with
  | nil => cases ht
  | cons t2 rest ih =>
    intro acc
    simp only [List.foldl_cons]
    rcases List.mem_cons.mp ht with h1 | h2
    · subst h1
      exact keys_teamsFold_mono rest _ kv.1 (key_mem_ownersFold t.TeamID t.Owners o kv ho hE acc)
    · exact ih h2 _

/-- C8: an owner contributes an owner-email entry exactly when both the
is-commissioner and has-joined flags are false; every such owner's composite
key appears among the built owner-email fields, and every built field comes
from some owner with both flags false, carrying that owner's key and email. -/
theorem ownerEmailFields_iff (teams : List LeagueSetupTeam) (t : LeagueSetupTeam)
    (o : TeamOwner) (ht : t ∈ teams) (ho : o ∈ t.Owners) :
    ((ownerEmailEntry t.TeamID o).isSome
        ↔ (o.IsCommissioner = false ∧ o.JoinedLeague = false))
  ∧ (o.IsCommissioner = false → o.JoinedLeague = false →
      ownerEmailKey t.TeamID o ∈ (buildOwnerEmailFields teams).map Prod.fst)
  ∧ (∀ kv ∈ buildOwnerEmailFields teams, ∃ t2 o2, t2 ∈ teams ∧ o2 ∈ t2.Owners
      ∧ o2.IsCommissioner = false ∧ o2.JoinedLeague = false
      ∧ kv = (ownerEmailKey t2.TeamID o2, o2.Email)) := by
  refine ⟨?_, ?_, ?_⟩
  · cases hc : o.IsCommissioner <;> cases hj : o.JoinedLeague <;>
      simp [ownerEmailEntry, hc, hj]
  · intro hc hj
    have hE : ownerEmailEntry t.TeamID o = some (ownerEmailKey t.TeamID o, o.Email) := by
      simp [ownerEmailEntry, hc, hj]
    exact key_mem_teamsFold teams t o _ ht ho hE []
  · intro kv hkv
    rcases mem_teamsFold teams [] kv hkv with h1 | ⟨t2, o2, ht2, ho2, he2⟩
    · cases h1
    · refine ⟨t2, o2, ht2, ho2, ?_, ?_, ?_⟩
      · by_contra hc
        have : o2.IsCommissioner = true := by
          cases hE : o2.IsCommissioner
          · exact absurd hE hc
          · rfl
        simp [ownerEmailEntry, this] at he2
      · by_contra hj
        have h2 : o2.JoinedLeague = true := by
          cases hE : o2.JoinedLeague
          · exact absurd hE hj
          · rfl
        simp [ownerEmailEntry, h2] at he2
      · have hc : o2.IsCommissioner = false := by
          by_contra hc
          have : o2.IsCommissioner = true := by
            cases hE : o2.IsCommissioner
            · exact absurd hE hc
            · rfl
          simp [ownerEmailEntry, this] at he2
        have hj : o2.JoinedLeague = false := by
          by_contra hj
          have : o2.JoinedLeague = true := by
            cases hE : o2.JoinedLeague
            · exact absurd hE hj
            · rfl
          simp [ownerEmailEntry, this] at he2
        simp only [ownerEmailEntry, hc, hj] at he2
        simp at he2
        exact he2.symm

/-- A team with one suppressed owner (commissioner) and one eligible owner. -/
def exOwnerTeam : LeagueSetupTeam :=
  ⟨"t1", "Alpha", "ALP",
   [⟨"a@x.com", "u1", true, true⟩, ⟨"b@x.com", "NULL_0", false, false⟩]⟩

/-- The team list carrying that team. -/
def exOwnerTeams : List LeagueSetupTeam := [exOwnerTeam]

/-- C8 witness: the eligible owner's key is generated, and the commissioner
contributes nothing. -/
theorem ownerEmailFields_iff_witness :
    exOwnerTeam ∈ exOwnerTeams
  ∧ ownerEmailKey exOwnerTeam.TeamID ⟨"b@x.com", "NULL_0", false, false⟩
      ∈ (buildOwnerEmailFields exOwnerTeams).map Prod.fst
  ∧ (ownerEmailEntry "t1" ⟨"a@x.com", "u1", true, true⟩).isSome = false :=
  ⟨by decide,
   (ownerEmailFields_iff exOwnerTeams exOwnerTeam ⟨"b@x.com", "NULL_0", false, false⟩
     (by decide) (by decide)).2.1 rfl rfl,
   by decide⟩

/-! ### First-seen order of team ids -/

/-- First occurrence of each string in order, with enough fuel. -/
def firstSeenAux : Nat → List String → List String
  | _, [] => []
  | 0, _ :: _ => []
  | fuel + 1, x :: xs => x :: firstSeenAux fuel (xs.filter (fun y => !(y == x)))

/-- First occurrence of each string, in first-seen order. -/
def firstSeen (l : List String) : List String :=
  firstSeenAux l.length l

theorem firstSeenAux_congr : ∀ (f1 f2 : Nat) (l : List String),
    l.length ≤ f1 → l.length ≤ f2 → firstSeenAux f1 l = firstSeenAux f2 l := by
  intro f1
  induction f1 with
  | zero =>
    intro f2 l h1 _
    cases l with
    | nil => cases f2 <;> rfl
    | cons x xs => simp at h1
  | succ g1 ih =>
    intro f2 l h1 h2
    cases l with
    | nil => cases f2 <;> rfl
    | cons x xs =>
      cases f2 with
      | zero => simp at h2
      | succ g2 =>
        simp only [firstSeenAux, List.cons.injEq, true_and]
        apply ih
        · exact le_trans (List.length_filter_le _ _) (by simpa using h1)
        · exact le_trans (List.length_filter_le _ _) (by simpa using h2)

theorem firstSeen_nil : firstSeen [] = [] := rfl

theorem firstSeen_cons (x : String) (xs : List String) :
    firstSeen (x :: xs) = x :: firstSeen (xs.filter (fun y => !(y == x))) := by
  simp only [firstSeen, List.length_cons, firstSeenAux, List.cons.injEq, true_and]
  exact firstSeenAux_congr xs.length (xs.filter (fun y => !(y == x))).length
    (xs.filter (fun y => !(y == x))) (List.length_filter_le _ _) (le_refl _)

theorem firstSeenAux_mem : ∀ (fuel : Nat) (l : List String) (y : String),
    y ∈ firstSeenAux fuel l → y ∈ l := by
  intro fuel
  induction fuel with
  | zero =>
    intro l y h
    cases l with
    | nil => cases h
    | cons x xs => cases h
  | succ g ih =>
    intro l y h
    cases l with
    | nil => cases h
    | cons x xs =>
      simp only [firstSeenAux, List.mem_cons] at h
      rcases h with h | h
      · exact List.mem_cons.mpr (Or.inl h)
      · exact List.mem_cons.mpr (Or.inr (List.mem_of_mem_filter (ih _ y h)))

theorem firstSeen_mem {l : List String} {y : String} (h : y ∈ firstSeen l) : y ∈ l :=
  firstSeenAux_mem l.length l y h

theorem firstSeenAux_nodup : ∀ (fuel : Nat) (l : List String),
    (firstSeenAux fuel l).Nodup := by
  intro fuel
  induction fuel with
  | zero =>
    intro l
    cases l with
    | nil => exact List.nodup_nil
    | cons x xs => exact List.nodup_nil
  | succ g ih =>
    intro l
    cases l with
    | nil => exact List.nodup_nil
    | cons x xs =>
      simp only [firstSeenAux, List.nodup_cons]
      refine ⟨?_, ih _⟩
      intro hc
      have hm := firstSeenAux_mem g _ x hc
      have := List.of_mem_filter hm
      simp at this

theorem firstSeen_nodup (l : List String) : (firstSeen l).Nodup :=
  firstSeenAux_nodup l.length l

theorem sum_counts_firstSeenAux : ∀ (fuel : Nat) (l : List String), l.length ≤ fuel →
    ((firstSeenAux fuel l).map (fun x => l.countP (fun y => y == x))).sum = l.length := by
  intro fuel
  induction fuel with
  | zero =>
    intro l h
    cases l with
    | nil => rfl
    | cons x xs => simp at h
  | succ g ih =>
    intro l h
    cases l with
    | nil => rfl
    | cons x xs =>
      simp only [firstSeenAux, List.map_cons, List.sum_cons]
      have hlen : (xs.filter (fun y => !(y == x))).length ≤ g :=
        le_trans (List.length_filter_le _ _) (by simpa using h)
      have hhead : (x :: xs).countP (fun y => y == x) = xs.countP (fun y => y == x) + 1 := by
        rw [List.countP_cons]
        simp
      have htail : ((firstSeenAux g (xs.filter (fun y => !(y == x)))).map
          (fun z => (x :: xs).countP (fun y => y == z))).sum
          = ((firstSeenAux g (xs.filter (fun y => !(y == x)))).map
          (fun z => (xs.filter (fun y => !(y == x))).countP (fun y => y == z))).sum := by
        apply congrArg
        apply List.map_congr_left
        intro z hz
        have hzmem := firstSeenAux_mem g _ z hz
        have hzx : (z == x) = false := by simpa using (List.of_mem_filter hzmem)
        have hzxne : ¬z = x := by simpa using hzx
        have hxz : (x == z) = false := by
          simp only [beq_eq_false_iff_ne]
          exact fun e => hzxne e.symm
        rw [List.countP_cons]
        simp only [hxz, Bool.false_eq_true, if_false, Nat.add_zero]
        rw [List.countP_filter]
        refine List.countP_congr ?_
        intro a _
        simp only [Bool.and_eq_true, Bool.not_eq_true', beq_iff_eq, beq_eq_false_iff_ne]
        constructor
        · intro ha
          exact ⟨ha, by rw [ha]; exact hzxne⟩
        · intro ha
          exact ha.1
      rw [hhead, htail, ih _ hlen]
      have hsplit : xs.length = xs.countP (fun y => y == x)
          + (xs.filter (fun y => !(y == x))).length := by
        have hc := List.length_eq_countP_add_countP (fun y => y == x) xs
        rw [hc]
        congr 1
        rw [← List.countP_eq_length_filter]
        refine List.countP_congr ?_
        intro a _
        simp
      simp only [List.length_cons]
      omega

theorem sum_counts_firstSeen (l : List String) :
    ((firstSeen l).map (fun x => l.countP (fun y => y == x))).sum = l.length :=
  sum_counts_firstSeenAux l.length l (le_refl _)

/-! ### Lemmas: the synthetic-id substitution -/

theorem substNulls_nil (ctr : Nat) : substNulls ctr [] = [] := rfl

theorem substNulls_cons (ctr : Nat) (m : AddTeamMatch) (ms : List AddTeamMatch) :
    substNulls ctr (m :: ms)
      = (m, if m.userID == "NULL" then "NULL_" ++ natDecString ctr else m.userID)
        :: substNulls (if m.userID == "NULL" then ctr + 1 else ctr) ms := by
  cases hb : m.userID == "NULL" <;> simp [substNulls, hb]

theorem substNulls_fst (ctr : Nat) (ms : List AddTeamMatch) :
    (substNulls ctr ms).map Prod.fst = ms := by
  induction ms generalizing ctr with
  | nil => rfl
  | cons m rest ih =>
    rw [substNulls_cons]
    simp [ih]

theorem substNulls_getElem (ms : List AddTeamMatch) : ∀ (ctr i : Nat) (m : AddTeamMatch),
    ms[i]? = some m →
    (substNulls ctr ms)[i]?
      = some (m, if m.userID == "NULL"
          then "NULL_" ++ natDecString (ctr + (ms.take i).countP (fun x => x.userID == "NULL"))
          else m.userID) := by
  induction ms with
  | nil => intro ctr i m h; simp at h
  | cons m0 rest ih =>
    intro ctr i m h
    cases i with
    | zero =>
      simp only [List.getElem?_cons_zero, Option.some.injEq] at h
      subst h
      rw [substNulls_cons]
      simp
    | succ i =>
      simp only [List.getElem?_cons_succ] at h
      rw [substNulls_cons]
      simp only [List.getElem?_cons_succ]
      have harith : ctr + ((m0 :: rest).take (i + 1)).countP (fun x => x.userID == "NULL")
          = (if m0.userID == "NULL" then ctr + 1 else ctr)
            + (rest.take i).countP (fun x => x.userID == "NULL") := by
        rw [List.take_succ_cons, List.countP_cons]
        cases hb : m0.userID == "NULL" <;> simp [hb] <;> omega
      rw [ih _ i m h, harith]

theorem countP_take_lt (ms : List AddTeamMatch) (i j : Nat) (m : AddTeamMatch)
    (hij : i < j) (hi : ms[i]? = some m) (hm : (m.userID == "NULL") = true) :
    (ms.take i).countP (fun x => x.userID == "NULL")
      < (ms.take j).countP (fun x => x.userID == "NULL") := by
  have h1 : ms.take j = ms.take (i + 1) ++ (ms.drop (i + 1)).take (j - (i + 1)) := by
    rw [← List.take_add]
    congr 1
    omega
  have h2 : ms.take (i + 1) = ms.take i ++ [m] := by
    rw [List.take_succ, hi]
    rfl
  rw [h1, List.countP_append, h2, List.countP_append]
  simp only [List.countP_cons, List.countP_nil, hm, if_true]
  omega

theorem substNulls_snd_ne (ctr : Nat) (ms : List AddTeamMatch) :
    ∀ q ∈ substNulls ctr ms, q.2 ≠ "NULL" := by
  induction ms generalizing ctr with
  | nil => intro q hq; cases hq
  | cons m rest ih =>
    intro q hq
    rw [substNulls_cons] at hq
    rcases List.mem_cons.mp hq with h1 | h2
    · subst h1
      cases hb : m.userID == "NULL" with
      | true =>
        simp only [hb, if_true]
        intro hc
        have hlen := congrArg String.length hc
        rw [String.length_append] at hlen
        have := natDecString_length_pos ctr
        have h4 : ("NULL_" : String).length = 5 := by decide
        have h5 : ("NULL" : String).length = 4 := by decide
        omega
      | false =>
        simp only [hb, Bool.false_eq_true, if_false]
        simpa using hb
    · exact ih _ q h2

/-! ### Lemmas: grouping matches into teams -/

/-- The owner list of the first team carrying an id. -/
def teamOwners (l : List LeagueSetupTeam) (tid : String) : List TeamOwner :=
  match l.find? (fun t => t.TeamID == tid) with
  | some t => t.Owners
  | none => []

theorem teamOwners_nil (tid : String) : teamOwners [] tid = [] := rfl

theorem teamOwners_cons (t : LeagueSetupTeam) (rest : List LeagueSetupTeam) (tid : String) :
    teamOwners (t :: rest) tid
      = if t.TeamID == tid then t.Owners else teamOwners rest tid := by
  cases hb : t.TeamID == tid <;> simp [teamOwners, List.find?_cons, hb]

theorem teamOwners_eq_nil_of_any_false (l : List LeagueSetupTeam) (tid : String)
    (h : l.any (fun t => t.TeamID == tid) = false) : teamOwners l tid = [] := by
  induction l with
  | nil => rfl
  | cons t ts ih =>
    simp only [List.any_cons, Bool.or_eq_false_iff] at h
    rw [teamOwners_cons, h.1]
    simp only [Bool.false_eq_true, if_false]
    exact ih h.2

theorem addOwner_ids (l : List LeagueSetupTeam) (tid : String) (o : TeamOwner) :
    (addOwnerToTeam l tid o).map (fun t => t.TeamID) = l.map (fun t => t.TeamID) := by
  induction l with
  | nil => rfl
  | cons t ts ih =>
    cases hb : t.TeamID == tid with
    | true => simp [addOwnerToTeam, hb]
    | false => simp [addOwnerToTeam, hb, ih]

theorem teamOwners_addOwner_self (l : List LeagueSetupTeam) (tid : String) (o : TeamOwner)
    (h : l.any (fun t => t.TeamID == tid) = true) :
    teamOwners (addOwnerToTeam l tid o) tid = teamOwners l tid ++ [o] := by
  induction l with
  | nil => simp at h
  | cons t ts ih =>
    cases hb : t.TeamID == tid with
    | true =>
      simp only [addOwnerToTeam, hb, if_true, teamOwners_cons]
    | false =>
      simp only [List.any_cons, hb, Bool.false_or] at h
      simp only [addOwnerToTeam, hb, Bool.false_eq_true, if_false, teamOwners_cons]
      exact ih h

theorem teamOwners_addOwner_ne (l : List LeagueSetupTeam) (tid tid' : String) (o : TeamOwner)
    (h : ¬tid' = tid) :
    teamOwners (addOwnerToTeam l tid o) tid' = teamOwners l tid' := by
  induction l with
  | nil => rfl
  | cons t ts ih =>
    cases hb : t.TeamID == tid with
    | true =>
      have h1 : t.TeamID = tid := by simpa using hb
      have hb' : (t.TeamID == tid') = false := by
        rw [beq_eq_false_iff_ne, h1]
        exact fun e => h e.symm
      simp only [addOwnerToTeam, hb, if_true, teamOwners_cons]
      simp [hb']
    | false =>
      simp only [addOwnerToTeam, hb, Bool.false_eq_true, if_false, teamOwners_cons]
      cases hb2 : t.TeamID == tid' with
      | true => simp
      | false => simpa using ih

theorem teamOwners_append (l : List LeagueSetupTeam) (t0 : LeagueSetupTeam) (tid : String) :
    teamOwners (l ++ [t0]) tid
      = if l.any (fun t => t.TeamID == tid) = true then teamOwners l tid
        else if t0.TeamID == tid then t0.Owners else [] := by
  induction l with
  | nil => simp [teamOwners_cons, teamOwners_nil]
  | cons t ts ih =>
    cases hb : t.TeamID == tid with
    | true => simp [teamOwners_cons, hb, List.any_cons]
    | false => simp [teamOwners_cons, hb, List.any_cons, ih]

theorem any_map_beq (acc : List LeagueSetupTeam) (tid : String) :
    (acc.map (fun t => t.TeamID)).any (fun x => x == tid)
      = acc.any (fun t => t.TeamID == tid) := by
  induction acc with
  | nil => rfl
  | cons t ts ih => simp [List.any_cons, ih]

theorem teamOwners_of_mem_nodup {teams : List LeagueSetupTeam} {t : LeagueSetupTeam}
    (hnd : (teams.map (fun t => t.TeamID)).Nodup) (hm : t ∈ teams) :
    teamOwners teams t.TeamID = t.Owners := by
  induction teams with
  | nil => cases hm
  | cons t2 rest ih =>
    simp only [List.map_cons, List.nodup_cons] at hnd
    rcases List.mem_cons.mp hm with h1 | h2
    · subst h1
      simp [teamOwners_cons]
    · have hne : (t2.TeamID == t.TeamID) = false := by
        rw [beq_eq_false_iff_ne]
        intro he
        exact hnd.1 (he ▸ List.mem_map.mpr ⟨t, h2, rfl⟩)
      rw [teamOwners_cons, hne]
      simp only [Bool.false_eq_true, if_false]
      exact ih hnd.2 h2

theorem parseTeamsLoop_spec (ms : List AddTeamMatch) :
    ∀ (ctr : Nat) (acc : List LeagueSetupTeam),
      (acc.map (fun t => t.TeamID)).Nodup →
      ((parseTeamsLoop ms ctr acc).map (fun t => t.TeamID)
          = acc.map (fun t => t.TeamID)
            ++ firstSeen ((ms.map (fun m2 => m2.teamID)).filter
                (fun tid => !(acc.map (fun t => t.TeamID)).any (fun x => x == tid)))
      ∧ ∀ tid, teamOwners (parseTeamsLoop ms ctr acc) tid
          = teamOwners acc tid
            ++ ((substNulls ctr ms).filter (fun q => q.1.teamID == tid)).map
                (fun q => mkOwner q.1 q.2)) := by
  induction ms with
  | nil =>
    intro ctr acc hnd
    constructor
    · simp [parseTeamsLoop, firstSeen_nil]
    · intro tid
      simp [parseTeamsLoop, substNulls_nil]
  | cons m rest ih =>
    intro ctr acc hnd
    have hstep : parseTeamsLoop (m :: rest) ctr acc
        = parseTeamsLoop rest (if m.userID == "NULL" then ctr + 1 else ctr)
            (if acc.any (fun t => t.TeamID == m.teamID)
             then addOwnerToTeam acc m.teamID
               (mkOwner m (if m.userID == "NULL" then "NULL_" ++ natDecString ctr else m.userID))
             else acc ++ [⟨m.teamID, m.name, m.shortName,
               [mkOwner m (if m.userID == "NULL" then "NULL_" ++ natDecString ctr
                           else m.userID)]⟩]) := rfl
    by_cases hmem : acc.any (fun t => t.TeamID == m.teamID) = true
    · -- the team id is already known: one owner is appended to its team
      rw [hstep, if_pos hmem]
      have hids' := addOwner_ids acc m.teamID
        (mkOwner m (if m.userID == "NULL" then "NULL_" ++ natDecString ctr else m.userID))
      have hnd' : ((addOwnerToTeam acc m.teamID
          (mkOwner m (if m.userID == "NULL" then "NULL_" ++ natDecString ctr
            else m.userID))).map (fun t => t.TeamID)).Nodup := by
        rw [hids']
        exact hnd
      obtain ⟨ihIds, ihOwn⟩ := ih (if m.userID == "NULL" then ctr + 1 else ctr) _ hnd'
      constructor
      · rw [ihIds, hids']
        have hpred : (!(acc.map (fun t => t.TeamID)).any (fun x => x == m.teamID)) = false := by
          rw [any_map_beq, hmem]
          rfl
        simp only [List.map_cons, List.filter_cons, hpred, Bool.false_eq_true, if_false]
      · intro tid
        rw [ihOwn tid, substNulls_cons]
        simp only [List.filter_cons]
        cases hb : ((m,
            if m.userID == "NULL" then "NULL_" ++ natDecString ctr
            else m.userID).1.teamID == tid) with
        | true =>
          have htid : m.teamID = tid := by simpa using hb
          subst htid
          rw [teamOwners_addOwner_self acc m.teamID _ hmem]
          simp [List.append_assoc]
        | false =>
          have htid : ¬tid = m.teamID := by
            have h3 : ¬m.teamID = tid := by simpa using hb
            exact fun e => h3 e.symm
          rw [teamOwners_addOwner_ne acc m.teamID tid _ htid]
          simp only [hb, Bool.false_eq_true, if_false]
    · -- a fresh team id: a new team is appended
      rw [hstep, if_neg hmem]
      have hmem' := bool_eq_false_of_ne_true hmem
      have hids' : ((acc ++ [(⟨m.teamID, m.name, m.shortName,
          [mkOwner m (if m.userID == "NULL" then "NULL_" ++ natDecString ctr
            else m.userID)]⟩ : LeagueSetupTeam)]).map (fun t => t.TeamID))
          = acc.map (fun t => t.TeamID) ++ [m.teamID] := by
        simp
      have hnotin : ¬m.teamID ∈ acc.map (fun t => t.TeamID) := by
        intro hc
        rcases List.mem_map.mp hc with ⟨t, ht, he⟩
        have hany : acc.any (fun t => t.TeamID == m.teamID) = true :=
          List.any_eq_true.mpr ⟨t, ht, by simp [he]⟩
        rw [hany] at hmem'
        cases hmem'
      have hnd' : (((acc ++ [(⟨m.teamID, m.name, m.shortName,
          [mkOwner m (if m.userID == "NULL" then "NULL_" ++ natDecString ctr
            else m.userID)]⟩ : LeagueSetupTeam)]).map (fun t => t.TeamID))).Nodup := by
        rw [hids']
        simp only [List.nodup_append, List.nodup_cons, List.not_mem_nil, not_false_iff,
          List.nodup_nil, true_and, and_true]
        refine ⟨hnd, ?_⟩
        intro a ha hb2
        simp only [List.mem_cons, List.not_mem_nil, or_false] at hb2
        rw [hb2] at ha
        exact hnotin ha
      obtain ⟨ihIds, ihOwn⟩ := ih (if m.userID == "NULL" then ctr + 1 else ctr) _ hnd'
      have hpredT : (!(acc.map (fun t => t.TeamID)).any (fun x => x == m.teamID)) = true := by
        rw [any_map_beq, hmem']
        rfl
      constructor
      · rw [ihIds, hids', List.append_assoc]
        congr 1
        have hff : ((rest.map (fun m2 => m2.teamID)).filter
              (fun tid => !((acc.map (fun t => t.TeamID)) ++ [m.teamID]).any
                (fun x => x == tid)))
            = (((rest.map (fun m2 => m2.teamID)).filter
              (fun tid => !(acc.map (fun t => t.TeamID)).any (fun x => x == tid))).filter
              (fun y => !(y == m.teamID))) := by
          rw [List.filter_filter]
          refine List.filter_congr ?_
          intro a _
          by_cases he : a = m.teamID
          · subst he
            simp [List.any_append]
          · have h1 : (a == m.teamID) = false := by
              rw [beq_eq_false_iff_ne]
              exact he
            have h2 : (m.teamID == a) = false := by
              rw [beq_eq_false_iff_ne]
              exact fun e => he e.symm
            simp [List.any_append, h1, h2]
        rw [show ((acc ++ [(⟨m.teamID, m.name, m.shortName,
            [mkOwner m (if m.userID == "NULL" then "NULL_" ++ natDecString ctr
              else m.userID)]⟩ : LeagueSetupTeam)]).map (fun t => t.TeamID))
            = acc.map (fun t => t.TeamID) ++ [m.teamID] from hids'] at *
        rw [hff]
        simp only [List.map_cons, List.filter_cons, hpredT, if_true]
        rw [firstSeen_cons]
        rfl
      · intro tid
        rw [ihOwn tid, substNulls_cons]
        simp only [List.filter_cons]
        cases hb : ((m,
            if m.userID == "NULL" then "NULL_" ++ natDecString ctr
            else m.userID).1.teamID == tid) with
        | true =>
          have htid : m.teamID = tid := by simpa using hb
          subst htid
          rw [teamOwners_append, teamOwners_eq_nil_of_any_false acc m.teamID hmem']
          simp only [hmem', Bool.false_eq_true, if_false]
          simp [hb]
        | false =>
          have hown' : teamOwners (acc ++ [(⟨m.teamID, m.name, m.shortName,
              [mkOwner m (if m.userID == "NULL" then "NULL_" ++ natDecString ctr
                else m.userID)]⟩ : LeagueSetupTeam)]) tid = teamOwners acc tid := by
            rw [teamOwners_append]
            by_cases hany : acc.any (fun t => t.TeamID == tid) = true
            · rw [if_pos hany]
            · rw [if_neg hany]
              have hb2 : ((⟨m.teamID, m.name, m.shortName,
                  [mkOwner m (if m.userID == "NULL" then "NULL_" ++ natDecString ctr
                    else m.userID)]⟩ : LeagueSetupTeam).TeamID == tid) = false := by
                simpa using hb
              rw [hb2]
              simp only [Bool.false_eq_true, if_false]
              rw [teamOwners_eq_nil_of_any_false acc tid (bool_eq_false_of_ne_true hany)]
          rw [hown']
          simp only [hb, Bool.false_eq_true, if_false]

theorem parseTeams_eq_loop {html : String} {teams : List LeagueSetupTeam}
    (h : parseTeams html = Except.ok teams) :
    teams = parseTeamsLoop (scanAddTeams html) 0 [] := by
  by_cases hE : (scanAddTeams html).isEmpty
  · simp [parseTeams, hE] at h
  · simp only [parseTeams, hE, Bool.false_eq_true, if_false, Except.ok.injEq] at h
    exact h.symm

theorem parseTeams_ids {html : String} {teams : List LeagueSetupTeam}
    (h : parseTeams html = Except.ok teams) :
    teams.map (fun t => t.TeamID)
      = firstSeen ((scanAddTeams html).map (fun m2 => m2.teamID)) := by
  rw [parseTeams_eq_loop h]
  obtain ⟨hids, -⟩ := parseTeamsLoop_spec (scanAddTeams html) 0 [] (by simp)
  rw [hids]
  simp

theorem parseTeams_owners {html : String} {teams : List LeagueSetupTeam}
    (h : parseTeams html = Except.ok teams) :
    ∀ t ∈ teams, t.Owners
      = ((substNulls 0 (scanAddTeams html)).filter
          (fun q => q.1.teamID == t.TeamID)).map (fun q => mkOwner q.1 q.2) := by
  intro t ht
  have hnd : (teams.map (fun t => t.TeamID)).Nodup := by
    rw [parseTeams_ids h]
    exact firstSeen_nodup _
  have hfind := teamOwners_of_mem_nodup hnd ht
  obtain ⟨-, hown⟩ := parseTeamsLoop_spec (scanAddTeams html) 0 [] (by simp)
  have h5 := hown t.TeamID
  rw [← parseTeams_eq_loop h, teamOwners_nil, List.nil_append, hfind] at h5
  exact h5

/-! ### Claim C10: structure of the parsed team list -/

/-- C10: on every html on which parseTeams succeeds, the teams carry pairwise
distinct ids ordered by the first occurrence of each id among the addTeam
matches, the total owner count equals the match count, and each team's owner
list is exactly its matches in match order, one owner per match. -/
theorem parseTeams_structure (html : String) (teams : List LeagueSetupTeam)
    (h : parseTeams html = Except.ok teams) :
    (teams.map (fun t => t.TeamID)).Nodup
  ∧ teams.map (fun t => t.TeamID)
      = firstSeen ((scanAddTeams html).map (fun m2 => m2.teamID))
  ∧ (teams.map (fun t => t.Owners.length)).sum = (scanAddTeams html).length
  ∧ (∀ t ∈ teams, t.Owners
      = ((substNulls 0 (scanAddTeams html)).filter
          (fun q => q.1.teamID == t.TeamID)).map (fun q => mkOwner q.1 q.2)) := by
  refine ⟨?_, parseTeams_ids h, ?_, parseTeams_owners h⟩
  · rw [parseTeams_ids h]
    exact firstSeen_nodup _
  · have hOwnLen : ∀ t ∈ teams, t.Owners.length
        = ((scanAddTeams html).map (fun m2 => m2.teamID)).countP
            (fun y => y == t.TeamID) := by
      intro t ht
      rw [parseTeams_owners h t ht, List.length_map, ← List.countP_eq_length_filter]
      conv_rhs => rw [show (scanAddTeams html)
        = (substNulls 0 (scanAddTeams html)).map Prod.fst from (substNulls_fst 0 _).symm]
      rw [List.map_map, List.countP_map]
      rfl
    calc (teams.map (fun t => t.Owners.length)).sum
        = (teams.map (fun t => ((scanAddTeams html).map (fun m2 => m2.teamID)).countP
            (fun y => y == t.TeamID))).sum := by
          rw [List.map_congr_left hOwnLen]
      _ = ((teams.map (fun t => t.TeamID)).map
            (fun x => ((scanAddTeams html).map (fun m2 => m2.teamID)).countP
              (fun y => y == x))).sum := by
          rw [List.map_map]
          rfl
      _ = ((firstSeen ((scanAddTeams html).map (fun m2 => m2.teamID))).map
            (fun x => ((scanAddTeams html).map (fun m2 => m2.teamID)).countP
              (fun y => y == x))).sum := by
          rw [parseTeams_ids h]
      _ = ((scanAddTeams html).map (fun m2 => m2.teamID)).length :=
          sum_counts_firstSeen _
      _ = (scanAddTeams html).length := List.length_map _ _

/-! ### Claim C7: synthetic placeholder ids -/

theorem ownerEmailEntry_eq {tid : String} {o : TeamOwner} {kv : String × String}
    (h : ownerEmailEntry tid o = some kv) : kv = (ownerEmailKey tid o, o.Email) := by
  by_cases hc : (!o.IsCommissioner && !o.JoinedLeague) = true
  · simp only [ownerEmailEntry, hc, if_true, Option.some.injEq] at h
    exact h.symm
  · simp only [ownerEmailEntry, bool_eq_false_of_ne_true hc, Bool.false_eq_true, if_false] at h
    exact Option.noConfusion h

/-- C7: on every html on which parseTeams succeeds, the match at position i
whose user id is the NULL placeholder is assigned the synthetic id NULL_n
where n counts the placeholder occurrences before i in first-seen order;
matches with real ids keep them; two placeholder matches always receive
distinct synthetic ids; the teams carry exactly these assigned owners, no
owner ever carries the raw placeholder, and every serialized owner-email key
is built from an owner whose id is not the raw placeholder. -/
theorem parseTeams_syntheticIds (html : String) (teams : List LeagueSetupTeam)
    (h : parseTeams html = Except.ok teams) :
    (∀ (i : Nat) (m : AddTeamMatch), (scanAddTeams html)[i]? = some m → m.userID = "NULL" →
      (substNulls 0 (scanAddTeams html))[i]?
        = some (m, "NULL_" ++ natDecString
            (((scanAddTeams html).take i).countP (fun x => x.userID == "NULL"))))
  ∧ (∀ (i : Nat) (m : AddTeamMatch), (scanAddTeams html)[i]? = some m → m.userID ≠ "NULL" →
      (substNulls 0 (scanAddTeams html))[i]? = some (m, m.userID))
  ∧ (∀ (i j : Nat) (mi mj : AddTeamMatch) (si sj : String), i < j →
      (scanAddTeams html)[i]? = some mi → (scanAddTeams html)[j]? = some mj →
      mi.userID = "NULL" → mj.userID = "NULL" →
      (substNulls 0 (scanAddTeams html))[i]? = some (mi, si) →
      (substNulls 0 (scanAddTeams html))[j]? = some (mj, sj) → si ≠ sj)
  ∧ (∀ t ∈ teams, t.Owners
      = ((substNulls 0 (scanAddTeams html)).filter
          (fun q => q.1.teamID == t.TeamID)).map (fun q => mkOwner q.1 q.2))
  ∧ (∀ t ∈ teams, ∀ o ∈ t.Owners, o.UserID ≠ "NULL")
  ∧ (∀ kv ∈ buildOwnerEmailFields teams, ∃ t2 o2, t2 ∈ teams ∧ o2 ∈ t2.Owners
      ∧ o2.UserID ≠ "NULL" ∧ kv.1 = ownerEmailKey t2.TeamID o2) := by
  have hone : ∀ (i : Nat) (m : AddTeamMatch), (scanAddTeams html)[i]? = some m → m.userID = "NULL" →
      (substNulls 0 (scanAddTeams html))[i]?
        = some (m, "NULL_" ++ natDecString
            (((scanAddTeams html).take i).countP (fun x => x.userID == "NULL"))) := by
    intro i m hi hm
    have hb : (m.userID == "NULL") = true := by simp [hm]
    have h2 := substNulls_getElem (scanAddTeams html) 0 i m hi
    simp only [hb, if_true, Nat.zero_add] at h2
    exact h2
  have hno : ∀ t ∈ teams, ∀ o ∈ t.Owners, o.UserID ≠ "NULL" := by
    intro t ht o ho
    rw [parseTeams_owners h t ht] at ho
    rcases List.mem_map.mp ho with ⟨q, hq, he⟩
    have hq2 := List.mem_of_mem_filter hq
    have h3 := substNulls_snd_ne 0 (scanAddTeams html) q hq2
    rw [← he]
    exact h3
  refine ⟨hone, ?_, ?_, parseTeams_owners h, hno, ?_⟩
  · intro i m hi hm
    have hb : (m.userID == "NULL") = false := by simpa using hm
    have h2 := substNulls_getElem (scanAddTeams html) 0 i m hi
    simp only [hb, Bool.false_eq_true, if_false] at h2
    exact h2
  · intro i j mi mj si sj hij hi hj hmi hmj hsi hsj
    have h1 := hone i mi hi hmi
    have h2 := hone j mj hj hmj
    rw [hsi] at h1
    rw [hsj] at h2
    simp only [Option.some.injEq, Prod.mk.injEq] at h1 h2
    obtain ⟨-, hsi2⟩ := h1
    obtain ⟨-, hsj2⟩ := h2
    intro hc
    rw [hsi2, hsj2] at hc
    have hdata := congrArg String.data hc
    rw [String.data_append, String.data_append] at hdata
    have hAB := List.append_cancel_left hdata
    have hval : (((scanAddTeams html).take i).countP (fun x => x.userID == "NULL"))
        = (((scanAddTeams html).take j).countP (fun x => x.userID == "NULL")) := by
      have d1 := digitsVal_decDigits
        (((scanAddTeams html).take i).countP (fun x => x.userID == "NULL"))
      have d2 := digitsVal_decDigits
        (((scanAddTeams html).take j).countP (fun x => x.userID == "NULL"))
      have hAB2 : decDigits
          (((scanAddTeams html).take i).countP (fun x => x.userID == "NULL"))
          = decDigits
          (((scanAddTeams html).take j).countP (fun x => x.userID == "NULL")) := hAB
      rw [← d1, ← d2, hAB2]
    have hlt := countP_take_lt (scanAddTeams html) i j mi hij hi (by simp [hmi])
    omega
  · intro kv hkv
    rcases mem_teamsFold teams [] kv hkv with h1 | ⟨t2, o2, ht2, ho2, he2⟩
    · cases h1
    · have hk := ownerEmailEntry_eq he2
      exact ⟨t2, o2, ht2, ho2, hno t2 ht2 o2 ho2, by rw [hk]⟩

/-- A page with three addTeam calls, two of them placeholder-bearing. -/
def exTeamsHtml : String :=
  "addTeam(\x27Alpha\x27, \x27AL\x27, \x27a@x.com\x27, \x27t1\x27, \x27u1\x27, true, true);"
  ++ "addTeam(\x27Beta\x27, \x27BE\x27, \x27b@x.com\x27, \x27t2\x27, \x27NULL\x27, false, false);"
  ++ "addTeam(\x27Beta\x27, \x27BE\x27, \x27c@x.com\x27, \x27t2\x27, \x27NULL\x27, false, false);"

/-- The teams parsed from that page. -/
def exTeamsResult : List LeagueSetupTeam :=
  (parseTeams exTeamsHtml).toOption.getD []

/-- C7 witness: the second placeholder match receives the synthetic id for
counter value one. -/
theorem parseTeams_syntheticIds_witness :
    parseTeams exTeamsHtml = Except.ok exTeamsResult
  ∧ (substNulls 0 (scanAddTeams exTeamsHtml))[2]?
      = some (⟨"Beta", "BE", "c@x.com", "t2", "NULL", "false", "false"⟩,
          "NULL_" ++ natDecString (((scanAddTeams exTeamsHtml).take 2).countP
            (fun x => x.userID == "NULL"))) := by
  set_option maxRecDepth 40000 in
  exact ⟨rfl, (parseTeams_syntheticIds exTeamsHtml exTeamsResult rfl).1 2
    ⟨"Beta", "BE", "c@x.com", "t2", "NULL", "false", "false"⟩ (by decide) rfl⟩

/-- C10 witness: the parsed teams of the concrete page have distinct ids and
one owner per match. -/
theorem parseTeams_structure_witness :
    parseTeams exTeamsHtml = Except.ok exTeamsResult
  ∧ (exTeamsResult.map (fun t => t.TeamID)).Nodup
  ∧ (exTeamsResult.map (fun t => t.Owners.length)).sum = (scanAddTeams exTeamsHtml).length := by
  set_option maxRecDepth 40000 in
  exact ⟨rfl, (parseTeams_structure exTeamsHtml exTeamsResult rfl).1,
    (parseTeams_structure exTeamsHtml exTeamsResult rfl).2.2.1⟩

/-! ### Claim C9: parseMatchupMap splitting and failure modes -/

theorem takeWhile_append_stop (p : Char → Bool) (a : List Char) (x : Char) (b : List Char)
    (ha : ∀ c ∈ a, p c = true) (hx : p x = false) :
    (a ++ x :: b).takeWhile p = a ∧ (a ++ x :: b).dropWhile p = x :: b := by
  induction a with
  | nil =>
    simp [List.takeWhile_cons, List.dropWhile_cons, hx]
  | cons c a2 ih =>
    have hc : p c = true := ha c (List.mem_cons_self c a2)
    have ha2 : ∀ c2 ∈ a2, p c2 = true := fun c2 h2 => ha c2 (List.mem_cons.mpr (Or.inr h2))
    obtain ⟨h1, h2⟩ := ih ha2
    constructor
    · simp [List.takeWhile_cons, hc, h1]
    · simp [List.dropWhile_cons, hc, h2]

theorem parsePairList_ok : ∀ (L : List (List Char)) (x : List MatchupPair),
    parsePairList L = Except.ok x → ∀ ps ∈ L, ps.contains '_' = true := by
  intro L
  induction L with
  | nil => intro x _ ps hps; cases hps
  | cons p rest ih =>
    intro x hok ps hps
    simp only [parsePairList] at hok
    cases hS : splitPair p with
    | error e => rw [hS] at hok; cases hok
    | ok mp =>
      rw [hS] at hok
      cases hR : parsePairList rest with
      | error e => rw [hR] at hok; cases hok
      | ok r2 =>
        rcases List.mem_cons.mp hps with h1 | h2
        · subst h1
          by_cases hc : ps.contains '_' = true
          · exact hc
          · rw [splitPair, if_neg (by simpa using hc)] at hS
            cases hS
        · exact ih r2 hR ps h2

theorem buildMatchupEntries_ok : ∀ (entries : List (List Char × List Char))
    (acc r : List (Int × List MatchupPair)), buildMatchupEntries entries acc = Except.ok r →
    ∀ en ∈ entries, ∀ ps ∈ scanAll tryQuoted en.2, ps.contains '_' = true := by
  intro entries
  induction entries with
  | nil => intro acc r _ en hen; cases hen
  | cons e0 rest ih =>
    intro acc r hok en hen
    rcases e0 with ⟨digits, arr⟩
    simp only [buildMatchupEntries] at hok
    cases hA : atoiDigits digits with
    | error e => rw [hA] at hok; cases hok
    | ok period =>
      rw [hA] at hok
      cases hP : parsePairList (scanAll tryQuoted arr) with
      | error e => rw [hP] at hok; cases hok
      | ok pairs =>
        rw [hP] at hok
        rcases List.mem_cons.mp hen with h1 | h2
        · subst h1
          exact fun ps hps => parsePairList_ok _ pairs hP ps hps
        · exact ih _ r hok en h2

/-- C9: splitPair cuts a pair string at the first separator only, the away id
being the separator-free text before it and the home id the entire remainder;
a pair string with no separator is an error; parseMatchupMap fails when the
matchupMap block is absent, when the block holds no period entries, and when
any captured pair string of any period entry holds no separator. -/
theorem parseMatchupMap_spec :
    (∀ (a b : List Char), a.contains '_' = false →
      splitPair (a ++ '_' :: b) = Except.ok ⟨String.mk a, String.mk b⟩)
  ∧ (∀ l : List Char, l.contains '_' = false → ∃ e, splitPair l = Except.error e)
  ∧ (∀ html : String, findMatchupBlock html.data = none →
      ∃ e, parseMatchupMap html = Except.error e)
  ∧ (∀ (html : String) (content : List Char), findMatchupBlock html.data = some content →
      scanAll tryPeriodEntry content = [] → ∃ e, parseMatchupMap html = Except.error e)
  ∧ (∀ (html : String) (content : List Char) (en : List Char × List Char) (ps : List Char),
      findMatchupBlock html.data = some content →
      en ∈ scanAll tryPeriodEntry content → ps ∈ scanAll tryQuoted en.2 →
      ps.contains '_' = false → ∃ e, parseMatchupMap html = Except.error e) := by
  refine ⟨?_, ?_, ?_, ?_, ?_⟩
  · intro a b hfree
    have hmem : (a ++ '_' :: b).contains '_' = true :=
      List.elem_iff.mpr (List.mem_append.mpr (Or.inr (List.mem_cons_self _ _)))
    have ha : ∀ c ∈ a, (decide (c ≠ '_')) = true := by
      intro c hc
      simp only [decide_eq_true_eq]
      intro he
      subst he
      have h3 : a.contains '_' = true := List.elem_iff.mpr hc
      rw [h3] at hfree
      cases hfree
    have hx : (decide (('_' : Char) ≠ '_')) = false := by decide
    obtain ⟨h1, h2⟩ := takeWhile_append_stop (fun c => decide (c ≠ '_')) a '_' b ha hx
    rw [splitPair, if_pos hmem]
    rw [h1, h2]
    rfl
  · intro l hfree
    refine ⟨"invalid matchup pair format: " ++ String.mk l, ?_⟩
    rw [splitPair, if_neg ?_]
    intro hc
    rw [hfree] at hc
    cases hc
  · intro html hnone
    exact ⟨_, by rw [parseMatchupMap, hnone]⟩
  · intro html content hsome hempty
    refine ⟨"no periods found in matchupMap", ?_⟩
    rw [parseMatchupMap, hsome]
    simp [hempty]
  · intro html content en ps hsome hen hps hfree
    cases hE : parseMatchupMap html with
    | error e => exact ⟨e, rfl⟩
    | ok r =>
      exfalso
      simp only [parseMatchupMap, hsome] at hE
      by_cases hemp : (scanAll tryPeriodEntry content).isEmpty = true
      · rw [if_pos hemp] at hE
        cases hE
      · rw [if_neg hemp] at hE
        have := buildMatchupEntries_ok (scanAll tryPeriodEntry content) [] r hE en hen ps hps
        rw [this] at hfree
        cases hfree

/-- C9 witness: a pair with a separator inside the home id splits at the first
separator only, and a page without the matchupMap block is a parse error. -/
theorem parseMatchupMap_spec_witness :
    ("a1".data.contains '_') = false
  ∧ splitPair ("a1".data ++ '_' :: "b_c".data) = Except.ok ⟨"a1", "b_c"⟩
  ∧ (∃ e, parseMatchupMap "<html>no map here</html>" = Except.error e) :=
  ⟨by decide,
   parseMatchupMap_spec.1 "a1".data "b_c".data (by decide),
   parseMatchupMap_spec.2.2.1 "<html>no map here</html>" (by decide)⟩

/-! ### Lemmas: the quote filter of the form-state scans (C4) -/

/-- A `foldl` whose step preserves a projection preserves it globally. -/
theorem foldl_proj_eq {α β γ : Type} (f : α → β → α) (g : α → γ)
    (hf : ∀ a b, g (f a b) = g a) :
    ∀ (l : List β) (a : α), g (List.foldl f a l) = g a := by
  intro l
  induction l with
  | nil => intro a; rfl
  | cons x xs ih =>
    intro a
    rw [List.foldl_cons, ih, hf]

/-- One hidden-input window adds to `HiddenFields` only quote-free pairs. -/
theorem processHiddenWindow_hidden_mem (cfg : LeagueSetupFormConfig) (w : List Char)
    (p : String × String) (hp : p ∈ (processHiddenWindow cfg w).HiddenFields) :
    p ∈ cfg.HiddenFields ∨
      (p.1.data.contains quoteChar = false ∧ p.2.data.contains quoteChar = false) := by
  rw [processHiddenWindow] at hp
  cases hn : firstAttrCapture "name=\"".data false w with
  | none =>
    rw [hn] at hp
    exact Or.inl hp
  | some nameC =>
    rw [hn] at hp
    simp only at hp
    by_cases hq : (nameC.contains quoteChar
        || ((firstAttrCapture "value=\"".data true w).getD []).contains quoteChar) = true
    · rw [if_pos hq] at hp
      exact Or.inl hp
    · rw [if_neg hq] at hp
      by_cases hu : "_".data.isPrefixOf nameC = true
      · rw [if_pos hu] at hp
        exact Or.inl hp
      · rw [if_neg hu] at hp
        have hp2 : p ∈ mapSet cfg.HiddenFields (String.mk nameC)
            (String.mk ((firstAttrCapture "value=\"".data true w).getD [])) := hp
        rcases mem_mapSet hp2 with h | h
        · exact Or.inl h
        · subst h
          have h2 := Bool.or_eq_false_iff.mp (Bool.eq_false_iff.mpr hq)
          exact Or.inr ⟨h2.1, h2.2⟩

/-- One hidden-input window adds to `CheckboxFields` only quote-free pairs. -/
theorem processHiddenWindow_checkbox_mem (cfg : LeagueSetupFormConfig) (w : List Char)
    (p : String × String) (hp : p ∈ (processHiddenWindow cfg w).CheckboxFields) :
    p ∈ cfg.CheckboxFields ∨
      (p.1.data.contains quoteChar = false ∧ p.2.data.contains quoteChar = false) := by
  rw [processHiddenWindow] at hp
  cases hn : firstAttrCapture "name=\"".data false w with
  | none =>
    rw [hn] at hp
    exact Or.inl hp
  | some nameC =>
    rw [hn] at hp
    simp only at hp
    by_cases hq : (nameC.contains quoteChar
        || ((firstAttrCapture "value=\"".data true w).getD []).contains quoteChar) = true
    · rw [if_pos hq] at hp
      exact Or.inl hp
    · rw [if_neg hq] at hp
      by_cases hu : "_".data.isPrefixOf nameC = true
      · rw [if_pos hu] at hp
        have hp2 : p ∈ mapSet cfg.CheckboxFields (String.mk nameC)
            (String.mk ((firstAttrCapture "value=\"".data true w).getD [])) := hp
        rcases mem_mapSet hp2 with h | h
        · exact Or.inl h
        · subst h
          have h2 := Bool.or_eq_false_iff.mp (Bool.eq_false_iff.mpr hq)
          exact Or.inr ⟨h2.1, h2.2⟩
      · rw [if_neg hu] at hp
        exact Or.inl hp

/-- The whole hidden-input scan adds to `HiddenFields` only quote-free pairs. -/
theorem applyHiddenScan_hidden_mem : ∀ (ws : List (List Char)) (cfg : LeagueSetupFormConfig)
    (p : String × String), p ∈ (applyHiddenScan cfg ws).HiddenFields →
    p ∈ cfg.HiddenFields ∨
      (p.1.data.contains quoteChar = false ∧ p.2.data.contains quoteChar = false) := by
  intro ws
  induction ws with
  | nil =>
    intro cfg p hp
    exact Or.inl hp
  | cons w rest ih =>
    intro cfg p hp
    rcases ih (processHiddenWindow cfg w) p hp with h | h
    · exact processHiddenWindow_hidden_mem cfg w p h
    · exact Or.inr h

/-- The whole hidden-input scan adds to `CheckboxFields` only quote-free pairs. -/
theorem applyHiddenScan_checkbox_mem : ∀ (ws : List (List Char)) (cfg : LeagueSetupFormConfig)
    (p : String × String), p ∈ (applyHiddenScan cfg ws).CheckboxFields →
    p ∈ cfg.CheckboxFields ∨
      (p.1.data.contains quoteChar = false ∧ p.2.data.contains quoteChar = false) := by
  intro ws
  induction ws with
  | nil =>
    intro cfg p hp
    exact Or.inl hp
  | cons w rest ih =>
    intro cfg p hp
    rcases ih (processHiddenWindow cfg w) p hp with h | h
    · exact processHiddenWindow_checkbox_mem cfg w p h
    · exact Or.inr h

/-- The select scan never touches the checkbox-shadow bucket. -/
theorem applySelectScan_checkboxFields (sels : List (List Char × List Char))
    (cfg : LeagueSetupFormConfig) :
    (applySelectScan cfg sels).CheckboxFields = cfg.CheckboxFields := by
  refine foldl_proj_eq _ LeagueSetupFormConfig.CheckboxFields ?_ sels cfg
  intro a b
  cases hs : selectedOptionValue b.2 <;> simp only [hs]

/-- One text-input window never touches the checkbox-shadow bucket. -/
theorem processTextWindow_checkboxFields (cfg : LeagueSetupFormConfig) (w : List Char) :
    (processTextWindow cfg w).CheckboxFields = cfg.CheckboxFields := by
  rw [processTextWindow]
  split
  · split <;> rfl
  · rfl

/-- The text-input scan never touches the checkbox-shadow bucket. -/
theorem textFold_checkboxFields (ws : List (List Char)) (cfg : LeagueSetupFormConfig) :
    (ws.foldl processTextWindow cfg).CheckboxFields = cfg.CheckboxFields :=
  foldl_proj_eq processTextWindow LeagueSetupFormConfig.CheckboxFields
    processTextWindow_checkboxFields ws cfg

/-- One checked-checkbox window never touches the checkbox-shadow bucket. -/
theorem processCheckboxWindow_checkboxFields (cfg : LeagueSetupFormConfig) (w : List Char) :
    (processCheckboxWindow cfg w).CheckboxFields = cfg.CheckboxFields := by
  rw [processCheckboxWindow]
  split
  · split <;> rfl
  · rfl

/-- The checked-checkbox scan never touches the checkbox-shadow bucket. -/
theorem checkboxFold_checkboxFields (ws : List (List Char)) (cfg : LeagueSetupFormConfig) :
    (ws.foldl processCheckboxWindow cfg).CheckboxFields = cfg.CheckboxFields :=
  foldl_proj_eq processCheckboxWindow LeagueSetupFormConfig.CheckboxFields
    processCheckboxWindow_checkboxFields ws cfg

/-- The checkbox-shadow bucket of a full parse is exactly what the hidden-input
scan put there: none of the later scans or assembly steps writes to it. -/
theorem parseFormConfig_checkboxFields (html : String) (teams : List LeagueSetupTeam)
    (divisions : List LeagueSetupDivision) :
    (parseFormConfig html teams divisions).CheckboxFields =
      (applyHiddenScan emptyFormConfig
        (scanAll (tryInputTag [hiddenMarker]) html.data)).CheckboxFields := by
  have h1 : (parseFormConfig html teams divisions).CheckboxFields =
      ((scanAll (tryInputTag checkboxMarkers) html.data).foldl processCheckboxWindow
        ((scanAll (tryInputTag [textMarker]) html.data).foldl processTextWindow
          (applySelectScan
            (applyHiddenScan emptyFormConfig (scanAll (tryInputTag [hiddenMarker]) html.data))
            (scanAll trySelect html.data)))).CheckboxFields := rfl
  rw [h1, checkboxFold_checkboxFields, textFold_checkboxFields, applySelectScan_checkboxFields]

/-- A page whose only match is a checked checkbox whose name carries a quote
character: the checkbox scan stores it unfiltered. -/
def exQuoteHtml : String := "<input type=\"checkbox\" name=\"ab\x27cd\" value=\"v1\" checked>"

/-- A page whose only match is a hidden input with the checkbox-shadow
underscore prefix and no quote anywhere. -/
def exHiddenBoxHtml : String := "<input type=\"hidden\" name=\"_box\" value=\"on\">"

/-- **C4** (corrected). The quote filter applies only in the hidden-inputs
scan, not in all four scans: (1) the checkbox-shadow bucket of a full parse
holds only quote-free names and values, because only the (filtering) hidden
scan writes to it; (2) every pair the hidden-input scan adds to the hidden
bucket beyond what was already there is quote-free; (3) likewise for the
checkbox-shadow bucket. The select, checked-checkbox and allow-listed text
scans store their captures unfiltered (see the counterexample). -/
theorem formState_quoteFilter_amended (html : String) (teams : List LeagueSetupTeam)
    (divisions : List LeagueSetupDivision) (cfg : LeagueSetupFormConfig)
    (ws : List (List Char)) :
    (∀ p ∈ (parseFormConfig html teams divisions).CheckboxFields,
        p.1.data.contains quoteChar = false ∧ p.2.data.contains quoteChar = false) ∧
    (∀ p ∈ (applyHiddenScan cfg ws).HiddenFields,
        p ∈ cfg.HiddenFields ∨
          (p.1.data.contains quoteChar = false ∧ p.2.data.contains quoteChar = false)) ∧
    (∀ p ∈ (applyHiddenScan cfg ws).CheckboxFields,
        p ∈ cfg.CheckboxFields ∨
          (p.1.data.contains quoteChar = false ∧ p.2.data.contains quoteChar = false)) := by
  refine ⟨?_, fun p hp => applyHiddenScan_hidden_mem ws cfg p hp,
    fun p hp => applyHiddenScan_checkbox_mem ws cfg p hp⟩
  intro p hp
  rw [parseFormConfig_checkboxFields] at hp
  rcases applyHiddenScan_checkbox_mem _ emptyFormConfig p hp with h | h
  · exact absurd h (List.not_mem_nil p)
  · exact h

set_option maxRecDepth 40000 in
/-- **C4** counterexample: a checked checkbox whose name contains a quote
character is stored verbatim by the checkbox scan, so a name containing a
quote character does appear in the resulting form-state maps, refuting the
claim that the filter acts in all four scans. -/
theorem formState_quoteFilter_counterexample :
    ("ab\x27cd", "v1") ∈ (parseFormConfig exQuoteHtml [] []).HiddenFields ∧
    ("ab\x27cd" : String).data.contains quoteChar = true := by
  decide

set_option maxRecDepth 40000 in
/-- **C4** witness: on a concrete page the hidden scan routes the
underscore-prefixed field into the checkbox-shadow bucket, and the amended
theorem yields that its name and value are quote-free. -/
theorem formState_quoteFilter_amended_witness :
    ("_box", "on") ∈ (parseFormConfig exHiddenBoxHtml [] []).CheckboxFields ∧
    (("_box" : String).data.contains quoteChar = false ∧
     ("on" : String).data.contains quoteChar = false) := by
  have hmem : ("_box", "on") ∈ (parseFormConfig exHiddenBoxHtml [] []).CheckboxFields := by
    decide
  exact ⟨hmem,
    (formState_quoteFilter_amended exHiddenBoxHtml [] [] emptyFormConfig []).1 ("_box", "on") hmem⟩
